import Mathlib

/-!
Verification of the cookiecutter template-materialization engine.

The definitions below are a shallow embedding of the Python sources
(cookiecutter/prompt.py, generate.py, find.py, hooks.py, replay.py).
JSON-like values are modelled by `Val`, the filesystem by an explicit
`FS` record threaded through every operation, the Jinja template engine
by a small executable renderer over the constructs the code base uses,
and the interactive prompting boundary by an explicit queue of user
responses plus a trace of the prompts that were issued.
-/

set_option maxHeartbeats 1000000

namespace Cookiecutter

/-- A JSON-like value: the shape of cookiecutter contexts
(cookiecutter.json contents, replay records, prompt results). -/
inductive Val where
  | null
  | bool (b : Bool)
  | int (n : Int)
  | str (s : String)
  | list (xs : List Val)
  | dict (entries : List (String × Val))

/-- Structural induction for `Val` that hands the member hypotheses of the
two nested list constructors over as membership facts. -/
def Val.inductionOn {P : Val → Prop}
    (hnull : P .null) (hbool : ∀ b, P (.bool b))
    (hint : ∀ n, P (.int n)) (hstr : ∀ s, P (.str s))
    (hlist : ∀ xs, (∀ v ∈ xs, P v) → P (.list xs))
    (hdict : ∀ es, (∀ kv ∈ es, P kv.2) → P (.dict es)) :
    ∀ v, P v
  | .null => hnull
  | .bool b => hbool b
  | .int n => hint n
  | .str s => hstr s
  | .list xs =>
      hlist xs (fun v hv =>
        have : sizeOf v < sizeOf (Val.list xs) := by
          have := List.sizeOf_lt_of_mem hv
          simp only [Val.list.sizeOf_spec]
          omega
        Val.inductionOn hnull hbool hint hstr hlist hdict v)
  | .dict es =>
      hdict es (fun kv hkv =>
        have h1 : sizeOf kv < sizeOf es := List.sizeOf_lt_of_mem hkv
        have h2 : sizeOf kv.2 < sizeOf kv := by
          obtain ⟨a, b⟩ := kv
          simp only [Prod.mk.sizeOf_spec]
          omega
        have : sizeOf kv.2 < 1 + sizeOf es := by omega
        Val.inductionOn hnull hbool hint hstr hlist hdict kv.2)
termination_by v => sizeOf v

/-- First-match association-list lookup: Python `d[k]` / `d.get(k)`. -/
def lookupKey : List (String × Val) → String → Option Val
  | [], _ => none
  | (k', v) :: rest, k => if k' = k then some v else lookupKey rest k

/-- Python dict assignment `d[k] = v`: replaces the value in place when the
key exists (keeping its position) and appends the key otherwise. -/
def setKey : List (String × Val) → String → Val → List (String × Val)
  | [], k, v => [(k, v)]
  | (k', v') :: rest, k, v =>
      if k' = k then (k, v) :: rest else (k', v') :: setKey rest k v

/-- The keys of an association list. -/
def keysOf (l : List (String × Val)) : List String := l.map Prod.fst

/-- `true` iff the list of keys has no duplicates. -/
def nodupKeys : List String → Bool
  | [] => true
  | k :: rest => (!rest.contains k) && nodupKeys rest

mutual

/-- A value is dict-like Python data when every object inside it has
pairwise-distinct keys, as every genuine Python dict does. -/
def Val.noDup : Val → Bool
  | .list xs => noDupList xs
  | .dict es => nodupKeys (keysOf es) && noDupMembers es
  | _ => true

/-- `Val.noDup` over the elements of an array. -/
def noDupList : List Val → Bool
  | [] => true
  | v :: rest => v.noDup && noDupList rest

/-- `Val.noDup` over the values of an object. -/
def noDupMembers : List (String × Val) → Bool
  | [] => true
  | (_, v) :: rest => v.noDup && noDupMembers rest

end

/-- Space test for trimming expression text. -/
def isSpaceChar (c : Char) : Bool := c = ' ' || c = '\t' || c = '\n' || c = '\r'

/-- Strip leading and trailing whitespace (Python `str.strip`). -/
def trimChars (cs : List Char) : List Char :=
  ((cs.dropWhile isSpaceChar).reverse.dropWhile isSpaceChar).reverse

/-- Split on a separator character (Python `str.split(sep)`). -/
def splitChar (sep : Char) : List Char → List (List Char)
  | [] => [[]]
  | c :: rest =>
      if c = sep then [] :: splitChar sep rest
      else
        match splitChar sep rest with
        | [] => [[c]]
        | g :: gs => (c :: g) :: gs

/-- Python `s.startswith(pre)`. -/
def strStartsWith (s pre : String) : Bool := pre.data.isPrefixOf s.data

/-- Python `s.endswith(suffix)`. -/
def strEndsWith (s suffix : String) : Bool :=
  suffix.data.reverse.isPrefixOf s.data.reverse

/-- ASCII lower-casing of one character. -/
def charLower (c : Char) : Char :=
  if 'A' ≤ c ∧ c ≤ 'Z' then Char.ofNat (c.toNat + 32) else c

/-- Python `str.lower` over ASCII. -/
def strLower (s : String) : String := String.mk (s.data.map charLower)

/-- A flat model of the filesystem: a list of directory paths and a list
of (file path, contents) pairs, both in creation order. -/
structure FS where
  dirs : List String
  files : List (String × String)
  deriving Repr, DecidableEq

/-- `os.path.join` for the forward-slash paths used throughout. -/
def pathJoin (a b : String) : String := a ++ "/" ++ b

def FS.fileExists (fs : FS) (p : String) : Bool := fs.files.any (fun f => f.1 = p)

def FS.dirExists (fs : FS) (p : String) : Bool := fs.dirs.contains p

/-- `os.path.exists`. -/
def FS.pathExists (fs : FS) (p : String) : Bool := fs.dirExists p || fs.fileExists p

/-- Replace-or-append for the file table (what writing a file does). -/
def setFile : List (String × String) → String → String → List (String × String)
  | [], p, c => [(p, c)]
  | (p', c') :: rest, p, c =>
      if p' = p then (p, c) :: rest else (p', c') :: setFile rest p c

def FS.writeFile (fs : FS) (p c : String) : FS :=
  { fs with files := setFile fs.files p c }

def FS.readFile (fs : FS) (p : String) : Option String :=
  (fs.files.find? (fun f => f.1 = p)).map Prod.snd

/-- `make_sure_path_exists`: create the directory if it is missing. -/
def FS.mkdir (fs : FS) (p : String) : FS :=
  if fs.dirExists p then fs else { fs with dirs := fs.dirs ++ [p] }

/-- `q` lies at or below the tree rooted at `root`. -/
def isUnder (root q : String) : Bool := q = root || strStartsWith q (root ++ "/")

/-- `shutil.rmtree`: drop the root and everything below it. -/
def FS.rmtree (fs : FS) (root : String) : FS :=
  { dirs := fs.dirs.filter (fun d => !isUnder root d),
    files := fs.files.filter (fun f => !isUnder root f.1) }

/-- The child name when `q` is directly inside directory `p`. -/
def childNameOf (p q : String) : Option String :=
  if strStartsWith q (p ++ "/") then
    let n := q.drop (p.length + 1)
    if n = "" || n.data.contains '/' then none else some n
  else none

/-- `os.listdir`: names directly inside `p`, in the listing order induced
by the model (directories first, then files, each in creation order). -/
def FS.listdir (fs : FS) (p : String) : List String :=
  ((fs.dirs.filterMap (childNameOf p)) ++
    (fs.files.map Prod.fst).filterMap (childNameOf p)).eraseDups

/-! ## Template engine

An executable model of the slice of Jinja the code base exercises:
literal text interleaved with `\x7b\x7b expression \x7d\x7d` prints,
where an expression is a dotted name chain with an optional trailing
nullary method call (for example `cookiecutter.project_name.lower()`).
Undefined names fail with the strict-undefined error, exactly as the
StrictEnvironment used by the code does; a print statement that is
never closed fails with the template error. -/

/-- A rendering failure: strict-undefined (jinja2 `UndefinedError`) or a
template syntax failure (jinja2 `TemplateSyntaxError`). -/
inductive RenderErr where
  | undef (msg : String)
  | badTemplate (msg : String)
  deriving Repr, DecidableEq

/-- One lexed piece of a template: literal text, or a print statement
holding a dotted name chain plus whether it ends in a nullary call. -/
inductive Chunk where
  | lit (s : String)
  | expr (path : List String) (call : Bool)
  deriving Repr, DecidableEq

/-- Parse the inside of a print statement: a dotted name chain with an
optional trailing nullary call. -/
def parseExprChars (cs : List Char) : Except RenderErr Chunk :=
  let t := trimChars cs
  let (body, call) :=
    match t.reverse with
    | ')' :: '(' :: bodyRev => (bodyRev.reverse, true)
    | _ => (t, false)
  let parts := (splitChar '.' body).map trimChars
  if parts.any (fun p => p.isEmpty) then
    .error (.badTemplate ("invalid expression " ++ String.mk t))
  else
    .ok (.expr (parts.map String.mk) call)

mutual

/-- Lex template text outside a print statement. -/
def lexText : List Char → Except RenderErr (List Chunk)
  | [] => .ok []
  | '{' :: '{' :: rest => lexExpr [] rest
  | c :: rest => (lexText rest).map (fun chunks => Chunk.lit (String.mk [c]) :: chunks)

/-- Lex the inside of a print statement up to the closing braces;
running out of input is the unclosed-statement syntax error. -/
def lexExpr (acc : List Char) : List Char → Except RenderErr (List Chunk)
  | [] => .error (.badTemplate "unexpected end of template, expected end of print statement")
  | '}' :: '}' :: rest =>
      (parseExprChars acc.reverse).bind (fun ch =>
        (lexText rest).map (fun tail => ch :: tail))
  | c :: rest => lexExpr (c :: acc) rest

end

/-- Lex a whole template string into chunks (single characters of
literal text come out as singleton literal chunks, which renders
identically). -/
def parseTemplate (s : String) : Except RenderErr (List Chunk) :=
  lexText s.data

/-- Attribute access `value.name`: on a mapping it resolves the item, as
jinja2 falls back to subscription; anything else is strict-undefined. -/
def valAttr (v : Val) (name : String) : Except RenderErr Val :=
  match v with
  | .dict es =>
      match lookupKey es name with
      | some w => .ok w
      | none => .error (.undef ("dict object has no attribute " ++ name))
  | _ => .error (.undef ("value has no attribute " ++ name))

/-- Fold attribute accesses along a dotted chain. -/
def valAttrs : Val → List String → Except RenderErr Val
  | v, [] => .ok v
  | v, a :: rest => (valAttr v a).bind (fun w => valAttrs w rest)

/-- The nullary string methods the templates in the claims use. -/
def callMethod (v : Val) (m : String) : Except RenderErr Val :=
  match v, m with
  | .str s, "lower" => .ok (.str (strLower s))
  | _, _ => .error (.undef ("method " ++ m ++ " is undefined"))

/-- How jinja2 prints a value into the output text. Containers never
reach this point in any execution the claims exercise. -/
def printVal : Val → String
  | .str s => s
  | .bool b => if b then "True" else "False"
  | .int n => toString n
  | .null => "None"
  | .list _ => "[...]"
  | .dict _ => "{...}"

/-- Evaluate a dotted chain with optional trailing call against the
render namespace; the head name missing is the strict-undefined error. -/
def evalExpr (ns : List (String × Val)) (path : List String) (call : Bool) :
    Except RenderErr Val :=
  match path with
  | [] => .error (.badTemplate "empty expression")
  | root :: attrs =>
      match lookupKey ns root with
      | none => .error (.undef (root ++ " is undefined"))
      | some v =>
          if call then
            match attrs.getLast? with
            | none => .error (.undef (root ++ " is not callable"))
            | some m => (valAttrs v attrs.dropLast).bind (fun w => callMethod w m)
          else
            valAttrs v attrs

/-- Render a list of chunks to text. -/
def renderChunks (ns : List (String × Val)) : List Chunk → Except RenderErr String
  | [] => .ok ""
  | .lit s :: rest => (renderChunks ns rest).map (fun t => s ++ t)
  | .expr path call :: rest =>
      (evalExpr ns path call).bind (fun v =>
        (renderChunks ns rest).map (fun t => printVal v ++ t))

/-- The template-engine environment. Modelled from the spec:
`create_env_with_context` lives in cookiecutter/utils.py, which is not
among the sources; per the spec the environment owns the engine
configuration and its only contribution to a render namespace is the
set of global values loaded from the private entry of the context. -/
structure JEnv where
  globals : List (String × Val)

/-- `env.from_string(raw).render(**kwargs)`: lex then evaluate, with the
passed keyword arguments shadowing the environment globals. -/
def JEnv.render (env : JEnv) (raw : String) (kwargs : List (String × Val)) :
    Except RenderErr String :=
  (parseTemplate raw).bind (renderChunks (kwargs ++ env.globals))

/-- Modelled from the spec: `create_env_with_context` (cookiecutter/utils.py,
not among the sources) builds one environment per invocation whose global
values come only from the private globals entry of the context; variables of
the context itself are not installed as globals. -/
def create_env_with_context (context : Val) : JEnv :=
  { globals :=
      match context with
      | .dict es =>
          match lookupKey es "cookiecutter" with
          | some (.dict cc) =>
              match lookupKey cc "_extra_context" with
              | some (.dict gs) => gs
              | _ => []
          | _ => []
      | _ => [] }

/-! ## JSON

An executable model of `json.dump(obj, f, indent=2)` and `json.load(f)`
over `Val`: a pretty-printing serializer and a recursive-descent parser
working on character lists.  The parser takes a recursion budget that the
top-level entry point instantiates with the input length. -/

/-- Lower-case hexadecimal digit for `n < 16`. -/
def hexDigit (n : Nat) : Char :=
  if n < 10 then Char.ofNat (48 + n) else Char.ofNat (87 + n)

/-- JSON string escaping of one character. -/
def escChar (c : Char) : List Char :=
  if c = '"' then ['\\', '"']
  else if c = '\\' then ['\\', '\\']
  else if c = '\n' then ['\\', 'n']
  else if c = '\t' then ['\\', 't']
  else if c = '\r' then ['\\', 'r']
  else if c.toNat < 32 then
    ['\\', 'u', '0', '0', hexDigit (c.toNat / 16), hexDigit (c.toNat % 16)]
  else [c]

/-- Escape every character of a string body. -/
def escapeChars (cs : List Char) : List Char := cs.flatMap escChar

/-- A JSON string literal, quotes included. -/
def strLitChars (k : String) : List Char := '"' :: escapeChars k.data ++ ['"']

/-- The decimal digits of a natural number, most significant first. -/
def natChars (n : Nat) : List Char :=
  if n = 0 then ['0'] else ((Nat.digits 10 n).reverse.map Nat.digitChar)

/-- The decimal rendering of an integer. -/
def intChars (i : Int) : List Char :=
  if i < 0 then '-' :: natChars i.natAbs else natChars i.natAbs

/-- `n` spaces. -/
def spacesChars (n : Nat) : List Char := List.replicate n ' '

mutual

/-- `json.dumps(v, indent=2)` at nesting level `lvl`, as characters. -/
def encVal : Val → Nat → List Char
  | .null, _ => ['n', 'u', 'l', 'l']
  | .bool true, _ => ['t', 'r', 'u', 'e']
  | .bool false, _ => ['f', 'a', 'l', 's', 'e']
  | .int i, _ => intChars i
  | .str s, _ => strLitChars s
  | .list [], _ => ['[', ']']
  | .list (x :: xs), lvl =>
      '[' :: '\n' :: (encItems (x :: xs) (lvl + 1) ++
        '\n' :: spacesChars (2 * lvl) ++ [']'])
  | .dict [], _ => ['{', '}']
  | .dict (e :: es), lvl =>
      '{' :: '\n' :: (encMembers (e :: es) (lvl + 1) ++
        '\n' :: spacesChars (2 * lvl) ++ ['}'])

/-- Array elements, one per line, comma separated. -/
def encItems : List Val → Nat → List Char
  | [], _ => []
  | [x], lvl => spacesChars (2 * lvl) ++ encVal x lvl
  | x :: y :: rest, lvl =>
      spacesChars (2 * lvl) ++ encVal x lvl ++
        ',' :: '\n' :: encItems (y :: rest) lvl

/-- Object members, one per line, comma separated. -/
def encMembers : List (String × Val) → Nat → List Char
  | [], _ => []
  | [(k, v)], lvl =>
      spacesChars (2 * lvl) ++ strLitChars k ++ ':' :: ' ' :: encVal v lvl
  | (k, v) :: m :: rest, lvl =>
      spacesChars (2 * lvl) ++ strLitChars k ++ ':' :: ' ' :: encVal v lvl ++
        ',' :: '\n' :: encMembers (m :: rest) lvl

end

/-- JSON whitespace. -/
def isWsChar (c : Char) : Bool := c = ' ' || c = '\n' || c = '\t' || c = '\r'

/-- Drop leading whitespace. -/
def skipWs : List Char → List Char
  | [] => []
  | c :: rest => if isWsChar c then skipWs rest else c :: rest

/-- The value of a hexadecimal digit. -/
def hexVal (c : Char) : Option Nat :=
  if '0' ≤ c ∧ c ≤ '9' then some (c.toNat - 48)
  else if 'a' ≤ c ∧ c ≤ 'f' then some (c.toNat - 87)
  else if 'A' ≤ c ∧ c ≤ 'F' then some (c.toNat - 55)
  else none

/-- Single-character escapes. -/
def unescChar (c : Char) : Option Char :=
  if c = '"' then some '"'
  else if c = '\\' then some '\\'
  else if c = '/' then some '/'
  else if c = 'n' then some '\n'
  else if c = 't' then some '\t'
  else if c = 'r' then some '\r'
  else if c = 'b' then some (Char.ofNat 8)
  else if c = 'f' then some (Char.ofNat 12)
  else none

/-- Parse a string body up to the closing quote; returns the decoded
characters and the input after the quote. -/
def parseStringBody : List Char → Option (List Char × List Char)
  | [] => none
  | '"' :: rest => some ([], rest)
  | '\\' :: 'u' :: a :: b :: c :: d :: rest =>
      (hexVal a).bind (fun ha =>
        (hexVal b).bind (fun hb =>
          (hexVal c).bind (fun hc =>
            (hexVal d).bind (fun hd =>
              (parseStringBody rest).map (fun p =>
                (Char.ofNat (ha * 4096 + hb * 256 + hc * 16 + hd) :: p.1, p.2))))))
  | '\\' :: e :: rest =>
      (unescChar e).bind (fun c =>
        (parseStringBody rest).map (fun p => (c :: p.1, p.2)))
  | c :: rest => (parseStringBody rest).map (fun p => (c :: p.1, p.2))

/-- Take the maximal run of decimal digits. -/
def takeDigits : List Char → List Char × List Char
  | [] => ([], [])
  | c :: rest =>
      if c.isDigit then
        let p := takeDigits rest
        (c :: p.1, p.2)
      else ([], c :: rest)

/-- The numeric value of a digit run. -/
def digitsVal (ds : List Char) : Nat :=
  ds.foldl (fun a c => a * 10 + (c.toNat - 48)) 0

/-- Parse an integer literal. -/
def parseNumber : List Char → Option (Val × List Char)
  | '-' :: rest =>
      match takeDigits rest with
      | ([], _) => none
      | (ds, r) => some (.int (-(digitsVal ds : Int)), r)
  | input =>
      match takeDigits input with
      | ([], _) => none
      | (ds, r) => some (.int (digitsVal ds), r)

/-- Building a Python dict from parsed pairs: later duplicates overwrite
earlier ones in place, which is what `json.load` does via `dict(pairs)`. -/
def dedupPairs (ps : List (String × Val)) : List (String × Val) :=
  ps.foldl (fun acc kv => setKey acc kv.1 kv.2) []

/-- Value dispatch once whitespace has been skipped, parameterized by the
member and item parsers of the next-smaller budget. -/
def parseValueAt
    (pm : Bool → List Char → Option (List (String × Val) × List Char))
    (pi : Bool → List Char → Option (List Val × List Char)) :
    List Char → Option (Val × List Char)
  | '{' :: rest => (pm true rest).map (fun p => (Val.dict (dedupPairs p.1), p.2))
  | '[' :: rest => (pi true rest).map (fun p => (Val.list p.1, p.2))
  | '"' :: rest => (parseStringBody rest).map (fun p => (Val.str (String.mk p.1), p.2))
  | 't' :: 'r' :: 'u' :: 'e' :: rest => some (.bool true, rest)
  | 'f' :: 'a' :: 'l' :: 's' :: 'e' :: rest => some (.bool false, rest)
  | 'n' :: 'u' :: 'l' :: 'l' :: rest => some (.null, rest)
  | other => parseNumber other

/-- After a member value: a comma continues the object, a closing brace
ends it. -/
def parseMemberEnd
    (pm : Bool → List Char → Option (List (String × Val) × List Char))
    (kdata : List Char) (v : Val) : List Char → Option (List (String × Val) × List Char)
  | ',' :: r4 => (pm false r4).map (fun mp => ((String.mk kdata, v) :: mp.1, mp.2))
  | '}' :: r4 => some ([(String.mk kdata, v)], r4)
  | _ => none

/-- After a member key: expect the colon, then the value. -/
def parseMemberColon
    (pv : List Char → Option (Val × List Char))
    (pm : Bool → List Char → Option (List (String × Val) × List Char))
    (kdata : List Char) : List Char → Option (List (String × Val) × List Char)
  | ':' :: r2 => (pv r2).bind (fun vp => parseMemberEnd pm kdata vp.1 (skipWs vp.2))
  | _ => none

/-- Object-member dispatch after the opening brace, once whitespace has
been skipped (`allowEnd` permits an immediately closing brace, i.e.
forbids a trailing comma). -/
def parseMembersAt
    (pv : List Char → Option (Val × List Char))
    (pm : Bool → List Char → Option (List (String × Val) × List Char)) :
    Bool → List Char → Option (List (String × Val) × List Char)
  | allowEnd, '}' :: rest => if allowEnd then some ([], rest) else none
  | _, '"' :: rest =>
      (parseStringBody rest).bind (fun kp => parseMemberColon pv pm kp.1 (skipWs kp.2))
  | _, _ => none

/-- After an array item: a comma continues the array, a closing bracket
ends it. -/
def parseItemEnd
    (pi : Bool → List Char → Option (List Val × List Char))
    (v : Val) : List Char → Option (List Val × List Char)
  | ',' :: r2 => (pi false r2).map (fun ip => (v :: ip.1, ip.2))
  | ']' :: r2 => some ([v], r2)
  | _ => none

/-- Array-item dispatch after the opening bracket, once whitespace has
been skipped. -/
def parseItemsAt
    (pv : List Char → Option (Val × List Char))
    (pi : Bool → List Char → Option (List Val × List Char)) :
    Bool → List Char → Option (List Val × List Char)
  | allowEnd, ']' :: rest => if allowEnd then some ([], rest) else none
  | _, other => (pv other).bind (fun vp => parseItemEnd pi vp.1 (skipWs vp.2))

/-- The recursive-descent JSON parsers at every recursion budget: a
value parser, an object-member parser and an array-item parser, each
first skipping whitespace and then dispatching on the head character. -/
def parseFns : Nat →
    (List Char → Option (Val × List Char)) ×
      (Bool → List Char → Option (List (String × Val) × List Char)) ×
      (Bool → List Char → Option (List Val × List Char))
  | 0 => (fun _ => none, fun _ _ => none, fun _ _ => none)
  | fuel + 1 =>
      let p := parseFns fuel
      (fun input => parseValueAt p.2.1 p.2.2 (skipWs input),
        fun aE input => parseMembersAt p.1 p.2.1 aE (skipWs input),
        fun aE input => parseItemsAt p.1 p.2.2 aE (skipWs input))

/-- Parse one JSON value within the given recursion budget. -/
def parseValue (fuel : Nat) (input : List Char) : Option (Val × List Char) :=
  (parseFns fuel).1 input

/-- Parse object members after the opening brace. -/
def parseMembers (fuel : Nat) (allowEnd : Bool) (input : List Char) :
    Option (List (String × Val) × List Char) :=
  (parseFns fuel).2.1 allowEnd input

/-- Parse array items after the opening bracket. -/
def parseItems (fuel : Nat) (allowEnd : Bool) (input : List Char) :
    Option (List Val × List Char) :=
  (parseFns fuel).2.2 allowEnd input

mutual

/-- The recursion budget a successful parse of an encoded value needs. -/
def Val.weight : Val → Nat
  | .list xs => 2 + weightItems xs
  | .dict es => 2 + weightMembers es
  | _ => 1

/-- Budget for array items. -/
def weightItems : List Val → Nat
  | [] => 0
  | v :: rest => 1 + v.weight + weightItems rest

/-- Budget for object members. -/
def weightMembers : List (String × Val) → Nat
  | [] => 0
  | (_, v) :: rest => 1 + v.weight + weightMembers rest

end

/-- `json.dumps(v, indent=2)`. -/
def jsonDumps (v : Val) : String := String.mk (encVal v 0)

/-- The first character of `rest` cannot extend a digit run. -/
def sepOk : List Char → Bool
  | [] => true
  | c :: _ => !c.isDigit

/-- Every character is JSON whitespace. -/
def allWs (l : List Char) : Bool := l.all isWsChar

/-- `json.loads`: parse one value and insist nothing but whitespace
follows it. -/
def jsonLoads (s : String) : Option Val :=
  (parseValue (s.length + 1) s.data).bind (fun p =>
    if skipWs p.2 = [] then some p.1 else none)

/-! ### Round-trip facts for the JSON model -/

theorem skipWs_cons_of_not {c : Char} (h : isWsChar c = false) (l : List Char) :
    skipWs (c :: l) = c :: l := by
  simp [skipWs, h]

theorem skipWs_append_of_allWs :
    ∀ {ws : List Char}, allWs ws = true → ∀ l, skipWs (ws ++ l) = skipWs l
  | [], _, _ => rfl
  | c :: rest, h, l => by
      simp only [allWs, List.all_cons, Bool.and_eq_true] at h
      simp only [List.cons_append, skipWs, h.1, if_true]
      exact skipWs_append_of_allWs h.2 l

theorem skipWs_ws_cons {ws : List Char} (hws : allWs ws = true) {c : Char}
    (hc : isWsChar c = false) (l : List Char) :
    skipWs (ws ++ c :: l) = c :: l := by
  rw [skipWs_append_of_allWs hws, skipWs_cons_of_not hc]

theorem allWs_spaces (n : Nat) : allWs (spacesChars n) = true := by
  simp only [allWs, spacesChars, List.all_eq_true]
  intro c hc
  rw [List.eq_of_mem_replicate hc]
  rfl

theorem allWs_append {a b : List Char} (ha : allWs a = true) (hb : allWs b = true) :
    allWs (a ++ b) = true := by
  simp only [allWs, List.all_append, Bool.and_eq_true]
  exact ⟨ha, hb⟩

theorem hexVal_hexDigit : ∀ m, m < 16 → hexVal (hexDigit m) = some m := by decide

theorem parseStringBody_escape (cs : List Char) :
    ∀ rest, parseStringBody (escapeChars cs ++ '"' :: rest) = some (cs, rest) := by
  induction cs with
  | nil => intro rest; rfl
  | cons c cs ih =>
      intro rest
      have hesc : escapeChars (c :: cs) = escChar c ++ escapeChars cs := by
        simp [escapeChars]
      rw [hesc, List.append_assoc]
      by_cases h1 : c = '"'
      · subst h1
        show parseStringBody ('\\' :: '"' :: (escapeChars cs ++ '"' :: rest)) = _
        show (parseStringBody (escapeChars cs ++ '"' :: rest)).map _ = _
        rw [ih]
        rfl
      · by_cases h2 : c = '\\'
        · subst h2
          show parseStringBody ('\\' :: '\\' :: (escapeChars cs ++ '"' :: rest)) = _
          show (parseStringBody (escapeChars cs ++ '"' :: rest)).map _ = _
          rw [ih]
          rfl
        · by_cases h3 : c = '\n'
          · subst h3
            show parseStringBody ('\\' :: 'n' :: (escapeChars cs ++ '"' :: rest)) = _
            show (parseStringBody (escapeChars cs ++ '"' :: rest)).map _ = _
            rw [ih]
            rfl
          · by_cases h4 : c = '\t'
            · subst h4
              show parseStringBody ('\\' :: 't' :: (escapeChars cs ++ '"' :: rest)) = _
              show (parseStringBody (escapeChars cs ++ '"' :: rest)).map _ = _
              rw [ih]
              rfl
            · by_cases h5 : c = '\r'
              · subst h5
                show parseStringBody ('\\' :: 'r' :: (escapeChars cs ++ '"' :: rest)) = _
                show (parseStringBody (escapeChars cs ++ '"' :: rest)).map _ = _
                rw [ih]
                rfl
              · by_cases h6 : c.toNat < 32
                · have hs : escChar c =
                      ['\\', 'u', '0', '0', hexDigit (c.toNat / 16), hexDigit (c.toNat % 16)] := by
                    simp [escChar, h1, h2, h3, h4, h5, h6]
                  rw [hs]
                  show ((hexVal '0').bind fun ha =>
                      (hexVal '0').bind fun hb =>
                      (hexVal (hexDigit (c.toNat / 16))).bind fun hc =>
                      (hexVal (hexDigit (c.toNat % 16))).bind fun hd =>
                      (parseStringBody (escapeChars cs ++ '"' :: rest)).map fun p =>
                        (Char.ofNat (ha * 4096 + hb * 256 + hc * 16 + hd) :: p.1, p.2)) = _
                  rw [show hexVal '0' = some 0 from rfl,
                    hexVal_hexDigit _ (by omega), hexVal_hexDigit _ (by omega)]
                  show Option.map
                      (fun p => (Char.ofNat (0 * 4096 + 0 * 256 + c.toNat / 16 * 16 + c.toNat % 16) :: p.1, p.2))
                      (parseStringBody (escapeChars cs ++ '"' :: rest)) = _
                  rw [ih]
                  show some (Char.ofNat (0 * 4096 + 0 * 256 + c.toNat / 16 * 16 + c.toNat % 16) :: cs, rest) = _
                  rw [show 0 * 4096 + 0 * 256 + c.toNat / 16 * 16 + c.toNat % 16 = c.toNat by omega,
                    Char.ofNat_toNat]
                · have hs : escChar c = [c] := by
                    simp [escChar, h1, h2, h3, h4, h5, h6]
                  rw [hs]
                  show parseStringBody (c :: (escapeChars cs ++ '"' :: rest)) = _
                  rw [parseStringBody.eq_def]
                  split
                  · rename_i heq
                    exact absurd heq (by simp)
                  · rename_i r heq
                    rw [List.cons.injEq] at heq
                    exact absurd heq.1 h1
                  · rename_i a b cc d r heq
                    rw [List.cons.injEq] at heq
                    exact absurd heq.1 h2
                  · rename_i e r hne heq
                    rw [List.cons.injEq] at heq
                    exact absurd heq.1 h2
                  · rename_i cc r hn1 hn2 hn3 heq
                    rw [List.cons.injEq] at heq
                    obtain ⟨rfl, rfl⟩ := heq
                    rw [ih]
                    rfl

theorem digitsVal_append (xs : List Char) (c : Char) :
    digitsVal (xs ++ [c]) = digitsVal xs * 10 + (c.toNat - 48) := by
  simp [digitsVal, List.foldl_append]

theorem digitChar_isDigit : ∀ d, d < 10 → (Nat.digitChar d).isDigit = true := by decide

theorem digitChar_toNat : ∀ d, d < 10 → (Nat.digitChar d).toNat - 48 = d := by decide

theorem digitsVal_ofDigits :
    ∀ ds : List Nat, (∀ d ∈ ds, d < 10) →
      digitsVal (ds.reverse.map Nat.digitChar) = Nat.ofDigits 10 ds := by
  intro ds
  induction ds with
  | nil => intro _; simp [digitsVal, Nat.ofDigits]
  | cons d ds ih =>
      intro h
      rw [List.reverse_cons, List.map_append, List.map_singleton, digitsVal_append,
        ih (fun x hx => h x (List.mem_cons_of_mem _ hx)),
        digitChar_toNat d (h d (List.mem_cons_self _ _)), Nat.ofDigits_cons]
      ring

theorem digitsVal_natChars (n : Nat) : digitsVal (natChars n) = n := by
  by_cases h : n = 0
  · subst h; rfl
  · rw [natChars, if_neg h,
      digitsVal_ofDigits _ (fun d hd => Nat.digits_lt_base (by norm_num) hd),
      Nat.ofDigits_digits]

theorem natChars_digits (n : Nat) : ∀ c ∈ natChars n, c.isDigit = true := by
  by_cases h : n = 0
  · subst h; intro c hc
    rw [show natChars 0 = ['0'] from rfl] at hc
    rw [List.mem_singleton] at hc
    subst hc; rfl
  · rw [natChars, if_neg h]
    intro c hc
    rw [List.mem_map] at hc
    obtain ⟨d, hd, rfl⟩ := hc
    rw [List.mem_reverse] at hd
    exact digitChar_isDigit d (Nat.digits_lt_base (by norm_num) hd)

theorem natChars_ne_nil (n : Nat) : natChars n ≠ [] := by
  by_cases h : n = 0
  · subst h; simp [natChars]
  · rw [natChars, if_neg h]
    simp only [ne_eq, List.map_eq_nil_iff, List.reverse_eq_nil_iff]
    exact Nat.digits_ne_nil_iff_ne_zero.mpr h

theorem takeDigits_append (ds : List Char) (rest : List Char)
    (h : ∀ c ∈ ds, c.isDigit = true) (hr : sepOk rest = true) :
    takeDigits (ds ++ rest) = (ds, rest) := by
  induction ds with
  | nil =>
      cases rest with
      | nil => rfl
      | cons c r =>
          simp only [sepOk, Bool.not_eq_true'] at hr
          simp [takeDigits, hr]
  | cons c ds ih =>
      have hc := h c (List.mem_cons_self _ _)
      simp only [List.cons_append, takeDigits, hc, if_true]
      rw [show ds.append rest = ds ++ rest from rfl,
        ih (fun x hx => h x (List.mem_cons_of_mem _ hx))]

theorem parseNumber_intChars (i : Int) (rest : List Char) (hr : sepOk rest = true) :
    parseNumber (intChars i ++ rest) = some (.int i, rest) := by
  by_cases h : i < 0
  · rw [intChars, if_pos h, List.cons_append]
    show (match takeDigits (natChars i.natAbs ++ rest) with
      | ([], _) => none
      | (ds, r) => some (Val.int (-(digitsVal ds : Int)), r)) = _
    rw [takeDigits_append _ _ (natChars_digits _) hr]
    cases hne : natChars i.natAbs with
    | nil => exact absurd hne (natChars_ne_nil _)
    | cons d ds =>
        show some (Val.int (-(digitsVal (d :: ds) : Int)), rest) = _
        rw [← hne, digitsVal_natChars,
          show (-(i.natAbs : Int)) = i by omega]
  · rw [intChars, if_neg h]
    have hd := natChars_digits i.natAbs
    cases hne : natChars i.natAbs with
    | nil => exact absurd hne (natChars_ne_nil _)
    | cons d ds =>
        rw [hne] at hd
        have hdd := hd d (List.mem_cons_self _ _)
        have hdm : d ≠ '-' := by
          intro e; rw [e] at hdd; exact absurd hdd (by decide)
        rw [List.cons_append]
        rw [parseNumber.eq_def]
        split
        · rename_i r heq
          rw [List.cons.injEq] at heq
          exact absurd heq.1 hdm
        · rename_i hne2
          rw [show takeDigits (d :: (ds ++ rest)) = takeDigits ((d :: ds) ++ rest) from rfl,
            takeDigits_append _ _ hd hr]
          show some (Val.int ((digitsVal (d :: ds) : Int)), rest) = _
          rw [← hne, digitsVal_natChars,
            show ((i.natAbs : Int)) = i by omega]





theorem parseValue_succ (f : Nat) (input : List Char) :
    parseValue (f + 1) input = parseValueAt (parseMembers f) (parseItems f) (skipWs input) := rfl

theorem parseMembers_succ (f : Nat) (aE : Bool) (input : List Char) :
    parseMembers (f + 1) aE input = parseMembersAt (parseValue f) (parseMembers f) aE (skipWs input) := rfl

theorem parseItems_succ (f : Nat) (aE : Bool) (input : List Char) :
    parseItems (f + 1) aE input = parseItemsAt (parseValue f) (parseItems f) aE (skipWs input) := rfl

theorem isDigit_not_special {c : Char} (h : c.isDigit = true) :
    c ≠ '{' ∧ c ≠ '[' ∧ c ≠ '"' ∧ c ≠ 't' ∧ c ≠ 'f' ∧ c ≠ 'n' ∧ c ≠ ']' ∧ c ≠ '}' ∧
      isWsChar c = false := by
  have ne : ∀ d : Char, d.isDigit = false → c ≠ d := by
    intro d hd e
    rw [e, hd] at h
    exact Bool.false_ne_true h
  refine ⟨ne _ (by decide), ne _ (by decide), ne _ (by decide), ne _ (by decide),
    ne _ (by decide), ne _ (by decide), ne _ (by decide), ne _ (by decide), ?_⟩
  have w1 := ne ' ' (by decide)
  have w2 := ne '\n' (by decide)
  have w3 := ne '\t' (by decide)
  have w4 := ne '\r' (by decide)
  simp [isWsChar, w1, w2, w3, w4]

theorem encVal_head (v : Val) (lvl : Nat) :
    ∃ c cs, encVal v lvl = c :: cs ∧ isWsChar c = false ∧ c ≠ ']' ∧ c ≠ '}' := by
  cases v with
  | null => exact ⟨'n', ['u', 'l', 'l'], by simp [encVal], by decide, by decide, by decide⟩
  | bool b =>
      cases b with
      | true => exact ⟨'t', ['r', 'u', 'e'], by simp [encVal], by decide, by decide, by decide⟩
      | false =>
          exact ⟨'f', ['a', 'l', 's', 'e'], by simp [encVal], by decide, by decide, by decide⟩
  | str s =>
      exact ⟨'"', escapeChars s.data ++ ['"'], by simp [encVal, strLitChars],
        by decide, by decide, by decide⟩
  | int i =>
      by_cases h : i < 0
      · exact ⟨'-', natChars i.natAbs, by simp [encVal, intChars, h],
          by decide, by decide, by decide⟩
      · cases hne : natChars i.natAbs with
        | nil => exact absurd hne (natChars_ne_nil _)
        | cons d ds =>
            have hd : d.isDigit = true := by
              apply natChars_digits i.natAbs
              rw [hne]
              exact List.mem_cons_self _ _
            obtain ⟨_, _, _, _, _, _, hne1, hne2, hws⟩ := isDigit_not_special hd
            exact ⟨d, ds, by simp [encVal, intChars, h, hne], hws, hne1, hne2⟩
  | list xs =>
      cases xs with
      | nil => exact ⟨'[', [']'], by simp [encVal], by decide, by decide, by decide⟩
      | cons x xs =>
          exact ⟨'[', '\n' :: (encItems (x :: xs) (lvl + 1) ++
              '\n' :: (spacesChars (2 * lvl) ++ [']'])),
            by simp [encVal], by decide, by decide, by decide⟩
  | dict es =>
      cases es with
      | nil => exact ⟨'{', ['}'], by simp [encVal], by decide, by decide, by decide⟩
      | cons e es =>
          exact ⟨'{', '\n' :: (encMembers (e :: es) (lvl + 1) ++
              '\n' :: (spacesChars (2 * lvl) ++ ['}'])),
            by simp [encVal], by decide, by decide, by decide⟩

theorem parseValueAt_other (pm) (pi) (c : Char) (l : List Char)
    (h1 : c ≠ '{') (h2 : c ≠ '[') (h3 : c ≠ '"') (h4 : c ≠ 't') (h5 : c ≠ 'f') (h6 : c ≠ 'n') :
    parseValueAt pm pi (c :: l) = parseNumber (c :: l) := by
  rw [parseValueAt.eq_def]
  split
  · rename_i heq; rw [List.cons.injEq] at heq; exact absurd heq.1 h1
  · rename_i heq; rw [List.cons.injEq] at heq; exact absurd heq.1 h2
  · rename_i heq; rw [List.cons.injEq] at heq; exact absurd heq.1 h3
  · rename_i heq; rw [List.cons.injEq] at heq; exact absurd heq.1 h4
  · rename_i heq; rw [List.cons.injEq] at heq; exact absurd heq.1 h5
  · rename_i heq; rw [List.cons.injEq] at heq; exact absurd heq.1 h6
  · rfl

theorem parseItemsAt_other (pv) (pi) (aE : Bool) (c : Char) (l : List Char)
    (h : c ≠ ']') :
    parseItemsAt pv pi aE (c :: l) =
      (pv (c :: l)).bind (fun vp => parseItemEnd pi vp.1 (skipWs vp.2)) := by
  rw [parseItemsAt.eq_def]
  split
  · rename_i heq; rw [List.cons.injEq] at heq; exact absurd heq.1 h
  · rfl


theorem keysOf_append (a b : List (String × Val)) :
    keysOf (a ++ b) = keysOf a ++ keysOf b := by
  simp [keysOf]

theorem setKey_append (acc : List (String × Val)) (k : String) (v : Val)
    (h : k ∉ keysOf acc) : setKey acc k v = acc ++ [(k, v)] := by
  induction acc with
  | nil => rfl
  | cons kv rest ih =>
      obtain ⟨k', v'⟩ := kv
      simp only [keysOf, List.map_cons, List.mem_cons, not_or] at h
      simp only [setKey, if_neg (Ne.symm h.1), List.cons_append, List.cons.injEq, true_and]
      exact ih h.2

theorem foldl_setKey_append :
    ∀ (ps acc : List (String × Val)), (∀ kv ∈ ps, kv.1 ∉ keysOf acc) →
      nodupKeys (keysOf ps) = true →
      ps.foldl (fun acc kv => setKey acc kv.1 kv.2) acc = acc ++ ps := by
  intro ps
  induction ps with
  | nil => intro acc _ _; simp
  | cons kv rest ih =>
      intro acc hdisj hnd
      obtain ⟨k, v⟩ := kv
      simp only [keysOf, List.map_cons, nodupKeys, Bool.and_eq_true,
        Bool.not_eq_true'] at hnd
      have hk : k ∉ keysOf acc := hdisj (k, v) (List.mem_cons_self _ _)
      simp only [List.foldl_cons]
      rw [setKey_append acc k v hk]
      rw [ih (acc ++ [(k, v)]) ?_ hnd.2]
      · simp
      · intro kv2 hkv2
        rw [keysOf_append]
        simp only [keysOf, List.map_singleton, List.mem_append, List.mem_singleton, not_or]
        refine ⟨hdisj kv2 (List.mem_cons_of_mem _ hkv2), ?_⟩
        intro e
        have : kv2.1 ∈ keysOf rest := List.mem_map_of_mem Prod.fst hkv2
        rw [e] at this
        have : (List.map Prod.fst rest).contains k = true := List.elem_eq_true_of_mem this
        rw [hnd.1] at this
        exact Bool.false_ne_true this

theorem dedupPairs_self (ps : List (String × Val)) (h : nodupKeys (keysOf ps) = true) :
    dedupPairs ps = ps := by
  rw [dedupPairs, foldl_setKey_append ps [] (by intro kv _; simp [keysOf]) h]
  simp

theorem Val.weight_pos : ∀ v : Val, 1 ≤ v.weight := by
  intro v
  cases v <;> simp [Val.weight] <;> omega

theorem parseValueAt_obracket (pm) (pi) (l : List Char) :
    parseValueAt pm pi ('[' :: l) = (pi true l).map (fun p => (Val.list p.1, p.2)) := rfl

theorem parseValueAt_obrace (pm) (pi) (l : List Char) :
    parseValueAt pm pi ('{' :: l) =
      (pm true l).map (fun p => (Val.dict (dedupPairs p.1), p.2)) := rfl

theorem parseMembersAt_quote (pv) (pm) (aE : Bool) (l : List Char) :
    parseMembersAt pv pm aE ('"' :: l) =
      (parseStringBody l).bind (fun kp => parseMemberColon pv pm kp.1 (skipWs kp.2)) := rfl

theorem parseMemberColon_colon (pv) (pm) (kdata : List Char) (l : List Char) :
    parseMemberColon pv pm kdata (':' :: l) =
      (pv l).bind (fun vp => parseMemberEnd pm kdata vp.1 (skipWs vp.2)) := rfl

theorem parseMemberEnd_comma (pm) (kdata : List Char) (v : Val) (l : List Char) :
    parseMemberEnd pm kdata v (',' :: l) =
      (pm false l).map (fun mp => ((String.mk kdata, v) :: mp.1, mp.2)) := rfl

theorem parseMemberEnd_brace (pm) (kdata : List Char) (v : Val) (l : List Char) :
    parseMemberEnd pm kdata v ('}' :: l) = some ([(String.mk kdata, v)], l) := rfl

theorem parseItemEnd_comma (pi) (v : Val) (l : List Char) :
    parseItemEnd pi v (',' :: l) = (pi false l).map (fun ip => (v :: ip.1, ip.2)) := rfl

theorem parseItemEnd_bracket (pi) (v : Val) (l : List Char) :
    parseItemEnd pi v (']' :: l) = some ([v], l) := rfl

theorem allWs_cons {c : Char} (hc : isWsChar c = true) {l : List Char}
    (hl : allWs l = true) : allWs (c :: l) = true := by
  simp only [allWs, List.all_cons, Bool.and_eq_true]
  exact ⟨hc, hl⟩

theorem parse_enc : ∀ fuel : Nat,
    (∀ (v : Val) (lvl : Nat) (ws rest : List Char), allWs ws = true → Val.noDup v = true →
      sepOk rest = true → Val.weight v ≤ fuel →
      parseValue fuel (ws ++ encVal v lvl ++ rest) = some (v, rest)) ∧
    (∀ (ms : List (String × Val)) (lvl k : Nat) (ws rest : List Char) (aE : Bool),
      ms ≠ [] → noDupMembers ms = true → weightMembers ms + 1 ≤ fuel → allWs ws = true →
      parseMembers fuel aE
          (ws ++ encMembers ms lvl ++ '\n' :: spacesChars k ++ '}' :: rest) =
        some (ms, rest)) ∧
    (∀ (xs : List Val) (lvl k : Nat) (ws rest : List Char) (aE : Bool),
      xs ≠ [] → noDupList xs = true → weightItems xs + 1 ≤ fuel → allWs ws = true →
      parseItems fuel aE
          (ws ++ encItems xs lvl ++ '\n' :: spacesChars k ++ ']' :: rest) =
        some (xs, rest)) := by
  intro fuel
  induction fuel with
  | zero =>
      refine ⟨?_, ?_, ?_⟩
      · intro v _ _ _ _ _ _ hw
        have := Val.weight_pos v
        omega
      · intro ms _ _ _ _ _ _ _ hw _
        omega
      · intro xs _ _ _ _ _ _ _ hw _
        omega
  | succ f ih =>
      obtain ⟨ihv, ihm, ihi⟩ := ih
      refine ⟨?_, ?_, ?_⟩
      · intro v lvl ws rest hws hnd hsep hw
        cases v with
        | null =>
            rw [show encVal .null lvl = 'n' :: ['u', 'l', 'l'] from by simp [encVal]]
            rw [parseValue_succ]
            rw [show ws ++ 'n' :: ['u', 'l', 'l'] ++ rest =
              ws ++ 'n' :: ('u' :: 'l' :: 'l' :: rest) from by simp]
            rw [skipWs_ws_cons hws (by decide)]
            rfl
        | bool b =>
            cases b with
            | true =>
                rw [show encVal (.bool true) lvl = 't' :: ['r', 'u', 'e'] from by simp [encVal]]
                rw [parseValue_succ]
                rw [show ws ++ 't' :: ['r', 'u', 'e'] ++ rest =
                  ws ++ 't' :: ('r' :: 'u' :: 'e' :: rest) from by simp]
                rw [skipWs_ws_cons hws (by decide)]
                rfl
            | false =>
                rw [show encVal (.bool false) lvl = 'f' :: ['a', 'l', 's', 'e'] from by
                  simp [encVal]]
                rw [parseValue_succ]
                rw [show ws ++ 'f' :: ['a', 'l', 's', 'e'] ++ rest =
                  ws ++ 'f' :: ('a' :: 'l' :: 's' :: 'e' :: rest) from by simp]
                rw [skipWs_ws_cons hws (by decide)]
                rfl
        | str s =>
            rw [show encVal (.str s) lvl = '"' :: (escapeChars s.data ++ ['"']) from by
              simp [encVal, strLitChars]]
            rw [parseValue_succ]
            rw [show ws ++ '"' :: (escapeChars s.data ++ ['"']) ++ rest =
              ws ++ '"' :: (escapeChars s.data ++ '"' :: rest) from by simp]
            rw [skipWs_ws_cons hws (by decide)]
            show (parseStringBody (escapeChars s.data ++ '"' :: rest)).map _ = _
            rw [parseStringBody_escape]
            rfl
        | int i =>
            rw [show encVal (.int i) lvl = intChars i from by simp [encVal]]
            rw [parseValue_succ]
            by_cases hneg : i < 0
            · rw [show intChars i = '-' :: natChars i.natAbs from by simp [intChars, hneg]]
              rw [show ws ++ '-' :: natChars i.natAbs ++ rest =
                ws ++ '-' :: (natChars i.natAbs ++ rest) from by simp]
              rw [skipWs_ws_cons hws (by decide)]
              rw [parseValueAt_other _ _ _ _ (by decide) (by decide) (by decide) (by decide)
                (by decide) (by decide)]
              rw [show ('-' :: (natChars i.natAbs ++ rest)) = intChars i ++ rest from by
                simp [intChars, hneg]]
              exact parseNumber_intChars i rest hsep
            · rw [show intChars i = natChars i.natAbs from by simp [intChars, hneg]]
              cases hne : natChars i.natAbs with
              | nil => exact absurd hne (natChars_ne_nil _)
              | cons d ds =>
                  have hd : d.isDigit = true := by
                    apply natChars_digits i.natAbs
                    rw [hne]
                    exact List.mem_cons_self _ _
                  obtain ⟨n1, n2, n3, n4, n5, n6, _, _, hwsd⟩ := isDigit_not_special hd
                  rw [show ws ++ (d :: ds) ++ rest = ws ++ d :: (ds ++ rest) from by simp]
                  rw [skipWs_ws_cons hws hwsd]
                  rw [parseValueAt_other _ _ _ _ n1 n2 n3 n4 n5 n6]
                  rw [show (d :: (ds ++ rest)) = (d :: ds) ++ rest from by simp, ← hne]
                  rw [show natChars i.natAbs ++ rest = intChars i ++ rest from by
                    simp [intChars, hneg]]
                  exact parseNumber_intChars i rest hsep
        | list xs =>
            cases xs with
            | nil =>
                have hf : 1 ≤ f := by
                  simp only [Val.weight] at hw
                  omega
                obtain ⟨g, rfl⟩ : ∃ g, f = g + 1 := ⟨f - 1, by omega⟩
                rw [show encVal (.list []) lvl = '[' :: [']'] from by simp [encVal]]
                rw [parseValue_succ]
                rw [show ws ++ '[' :: [']'] ++ rest = ws ++ '[' :: (']' :: rest) from by simp]
                rw [skipWs_ws_cons hws (by decide)]
                rw [parseValueAt_obracket, parseItems_succ, skipWs_cons_of_not (by decide)]
                rfl
            | cons x xs =>
                have hnwi : noDupList (x :: xs) = true := by
                  simpa only [Val.noDup] using hnd
                have hwi : weightItems (x :: xs) + 1 ≤ f := by
                  simp only [Val.weight] at hw
                  omega
                rw [show encVal (.list (x :: xs)) lvl =
                  '[' :: ('\n' :: (encItems (x :: xs) (lvl + 1) ++
                    '\n' :: (spacesChars (2 * lvl) ++ [']']))) from by simp [encVal]]
                rw [parseValue_succ]
                rw [show ws ++ '[' :: ('\n' :: (encItems (x :: xs) (lvl + 1) ++
                    '\n' :: (spacesChars (2 * lvl) ++ [']']))) ++ rest =
                  ws ++ '[' :: (['\n'] ++ encItems (x :: xs) (lvl + 1) ++
                    '\n' :: spacesChars (2 * lvl) ++ ']' :: rest) from by simp]
                rw [skipWs_ws_cons hws (by decide)]
                rw [parseValueAt_obracket]
                rw [ihi (x :: xs) (lvl + 1) (2 * lvl) ['\n'] rest true (by simp) hnwi hwi
                  (by decide)]
                rfl
        | dict es =>
            cases es with
            | nil =>
                have hf : 1 ≤ f := by
                  simp only [Val.weight] at hw
                  omega
                obtain ⟨g, rfl⟩ : ∃ g, f = g + 1 := ⟨f - 1, by omega⟩
                rw [show encVal (.dict []) lvl = '{' :: ['}'] from by simp [encVal]]
                rw [parseValue_succ]
                rw [show ws ++ '{' :: ['}'] ++ rest = ws ++ '{' :: ('}' :: rest) from by simp]
                rw [skipWs_ws_cons hws (by decide)]
                rw [parseValueAt_obrace, parseMembers_succ, skipWs_cons_of_not (by decide)]
                rfl
            | cons e es =>
                have hnd2 : nodupKeys (keysOf (e :: es)) = true ∧
                    noDupMembers (e :: es) = true := by
                  simpa only [Val.noDup, Bool.and_eq_true] using hnd
                have hwm : weightMembers (e :: es) + 1 ≤ f := by
                  simp only [Val.weight] at hw
                  omega
                rw [show encVal (.dict (e :: es)) lvl =
                  '{' :: ('\n' :: (encMembers (e :: es) (lvl + 1) ++
                    '\n' :: (spacesChars (2 * lvl) ++ ['}']))) from by simp [encVal]]
                rw [parseValue_succ]
                rw [show ws ++ '{' :: ('\n' :: (encMembers (e :: es) (lvl + 1) ++
                    '\n' :: (spacesChars (2 * lvl) ++ ['}']))) ++ rest =
                  ws ++ '{' :: (['\n'] ++ encMembers (e :: es) (lvl + 1) ++
                    '\n' :: spacesChars (2 * lvl) ++ '}' :: rest) from by simp]
                rw [skipWs_ws_cons hws (by decide)]
                rw [parseValueAt_obrace]
                rw [ihm (e :: es) (lvl + 1) (2 * lvl) ['\n'] rest true (by simp) hnd2.2 hwm
                  (by decide)]
                show some (Val.dict (dedupPairs (e :: es)), rest) = _
                rw [dedupPairs_self _ hnd2.1]
      · intro ms lvl k2 ws rest aE hne hnd hw hws
        cases ms with
        | nil => exact absurd rfl hne
        | cons kv ms2 =>
            obtain ⟨k1, v1⟩ := kv
            have hnd1 : Val.noDup v1 = true ∧ noDupMembers ms2 = true := by
              simpa only [noDupMembers, Bool.and_eq_true] using hnd
            rw [parseMembers_succ]
            cases ms2 with
            | nil =>
                have hwv : Val.weight v1 ≤ f := by
                  simp only [weightMembers] at hw
                  omega
                rw [show ws ++ encMembers [(k1, v1)] lvl ++
                    '\n' :: spacesChars k2 ++ '}' :: rest =
                  (ws ++ spacesChars (2 * lvl)) ++ '"' :: (escapeChars k1.data ++
                    '"' :: (':' :: (' ' :: (encVal v1 lvl ++
                      '\n' :: (spacesChars k2 ++ '}' :: rest)))))
                  from by simp [encMembers, strLitChars]]
                rw [skipWs_ws_cons (allWs_append hws (allWs_spaces _)) (by decide)]
                rw [parseMembersAt_quote, parseStringBody_escape]
                show parseMemberColon (parseValue f) (parseMembers f) k1.data
                  (skipWs (':' :: (' ' :: (encVal v1 lvl ++
                    '\n' :: (spacesChars k2 ++ '}' :: rest))))) = _
                rw [skipWs_cons_of_not (by decide), parseMemberColon_colon]
                have hv := ihv v1 lvl [' '] ('\n' :: (spacesChars k2 ++ '}' :: rest))
                  (by decide) hnd1.1 rfl hwv
                rw [show (' ' :: (encVal v1 lvl ++ '\n' :: (spacesChars k2 ++ '}' :: rest))) =
                  [' '] ++ encVal v1 lvl ++ '\n' :: (spacesChars k2 ++ '}' :: rest)
                  from by simp, hv]
                show parseMemberEnd (parseMembers f) k1.data v1
                  (skipWs ('\n' :: (spacesChars k2 ++ '}' :: rest))) = _
                rw [show ('\n' :: (spacesChars k2 ++ '}' :: rest)) =
                  ('\n' :: spacesChars k2) ++ '}' :: rest from by simp,
                  skipWs_ws_cons (allWs_cons (by decide) (allWs_spaces _)) (by decide),
                  parseMemberEnd_brace]
            | cons m2 ms3 =>
                have hwv : Val.weight v1 ≤ f := by
                  simp only [weightMembers] at hw
                  omega
                have hwm2 : weightMembers (m2 :: ms3) + 1 ≤ f := by
                  have hp := Val.weight_pos v1
                  simp only [weightMembers] at hw ⊢
                  omega
                rw [show ws ++ encMembers ((k1, v1) :: m2 :: ms3) lvl ++
                    '\n' :: spacesChars k2 ++ '}' :: rest =
                  (ws ++ spacesChars (2 * lvl)) ++ '"' :: (escapeChars k1.data ++
                    '"' :: (':' :: (' ' :: (encVal v1 lvl ++
                      ',' :: ('\n' :: (encMembers (m2 :: ms3) lvl ++
                        '\n' :: spacesChars k2 ++ '}' :: rest))))))
                  from by simp [encMembers, strLitChars]]
                rw [skipWs_ws_cons (allWs_append hws (allWs_spaces _)) (by decide)]
                rw [parseMembersAt_quote, parseStringBody_escape]
                show parseMemberColon (parseValue f) (parseMembers f) k1.data
                  (skipWs (':' :: (' ' :: (encVal v1 lvl ++
                    ',' :: ('\n' :: (encMembers (m2 :: ms3) lvl ++
                      '\n' :: spacesChars k2 ++ '}' :: rest)))))) = _
                rw [skipWs_cons_of_not (by decide), parseMemberColon_colon]
                have hv := ihv v1 lvl [' ']
                  (',' :: ('\n' :: (encMembers (m2 :: ms3) lvl ++
                    '\n' :: spacesChars k2 ++ '}' :: rest)))
                  (by decide) hnd1.1 rfl hwv
                rw [show (' ' :: (encVal v1 lvl ++
                    ',' :: ('\n' :: (encMembers (m2 :: ms3) lvl ++
                      '\n' :: spacesChars k2 ++ '}' :: rest)))) =
                  [' '] ++ encVal v1 lvl ++
                    ',' :: ('\n' :: (encMembers (m2 :: ms3) lvl ++
                      '\n' :: spacesChars k2 ++ '}' :: rest))
                  from by simp, hv]
                show parseMemberEnd (parseMembers f) k1.data v1
                  (skipWs (',' :: ('\n' :: (encMembers (m2 :: ms3) lvl ++
                    '\n' :: spacesChars k2 ++ '}' :: rest)))) = _
                rw [skipWs_cons_of_not (by decide), parseMemberEnd_comma]
                rw [show ('\n' :: (encMembers (m2 :: ms3) lvl ++
                    '\n' :: spacesChars k2 ++ '}' :: rest)) =
                  ['\n'] ++ encMembers (m2 :: ms3) lvl ++
                    '\n' :: spacesChars k2 ++ '}' :: rest from by simp]
                rw [ihm (m2 :: ms3) lvl k2 ['\n'] rest false (by simp) hnd1.2 hwm2 (by decide)]
                rfl
      · intro xs lvl k2 ws rest aE hne hnd hw hws
        cases xs with
        | nil => exact absurd rfl hne
        | cons x xs2 =>
            have hnd1 : Val.noDup x = true ∧ noDupList xs2 = true := by
              simpa only [noDupList, Bool.and_eq_true] using hnd
            rw [parseItems_succ]
            obtain ⟨hc, hcs, hcx, hcw, hcb1, hcb2⟩ := encVal_head x lvl
            cases xs2 with
            | nil =>
                have hwx : Val.weight x ≤ f := by
                  simp only [weightItems] at hw
                  omega
                rw [show ws ++ encItems [x] lvl ++ '\n' :: spacesChars k2 ++ ']' :: rest =
                  (ws ++ spacesChars (2 * lvl)) ++ hc :: (hcs ++
                    ('\n' :: (spacesChars k2 ++ ']' :: rest)))
                  from by simp [encItems, hcx]]
                rw [skipWs_ws_cons (allWs_append hws (allWs_spaces _)) hcw]
                rw [parseItemsAt_other _ _ _ _ _ hcb1]
                have hv := ihv x lvl [] ('\n' :: (spacesChars k2 ++ ']' :: rest))
                  (by decide) hnd1.1 rfl hwx
                rw [List.nil_append] at hv
                rw [show hc :: (hcs ++ ('\n' :: (spacesChars k2 ++ ']' :: rest))) =
                  encVal x lvl ++ '\n' :: (spacesChars k2 ++ ']' :: rest)
                  from by rw [hcx]; simp, hv]
                show parseItemEnd (parseItems f) x
                  (skipWs ('\n' :: (spacesChars k2 ++ ']' :: rest))) = _
                rw [show ('\n' :: (spacesChars k2 ++ ']' :: rest)) =
                  ('\n' :: spacesChars k2) ++ ']' :: rest from by simp,
                  skipWs_ws_cons (allWs_cons (by decide) (allWs_spaces _)) (by decide),
                  parseItemEnd_bracket]
            | cons y ys =>
                have hwx : Val.weight x ≤ f := by
                  simp only [weightItems] at hw
                  omega
                have hwi2 : weightItems (y :: ys) + 1 ≤ f := by
                  have hp := Val.weight_pos x
                  simp only [weightItems] at hw ⊢
                  omega
                rw [show ws ++ encItems (x :: y :: ys) lvl ++
                    '\n' :: spacesChars k2 ++ ']' :: rest =
                  (ws ++ spacesChars (2 * lvl)) ++ hc :: (hcs ++
                    (',' :: ('\n' :: (encItems (y :: ys) lvl ++
                      '\n' :: spacesChars k2 ++ ']' :: rest))))
                  from by simp [encItems, hcx]]
                rw [skipWs_ws_cons (allWs_append hws (allWs_spaces _)) hcw]
                rw [parseItemsAt_other _ _ _ _ _ hcb1]
                have hv := ihv x lvl []
                  (',' :: ('\n' :: (encItems (y :: ys) lvl ++
                    '\n' :: spacesChars k2 ++ ']' :: rest)))
                  (by decide) hnd1.1 rfl hwx
                rw [List.nil_append] at hv
                rw [show hc :: (hcs ++ (',' :: ('\n' :: (encItems (y :: ys) lvl ++
                    '\n' :: spacesChars k2 ++ ']' :: rest)))) =
                  encVal x lvl ++ ',' :: ('\n' :: (encItems (y :: ys) lvl ++
                    '\n' :: spacesChars k2 ++ ']' :: rest))
                  from by rw [hcx]; simp, hv]
                show parseItemEnd (parseItems f) x
                  (skipWs (',' :: ('\n' :: (encItems (y :: ys) lvl ++
                    '\n' :: spacesChars k2 ++ ']' :: rest)))) = _
                rw [skipWs_cons_of_not (by decide), parseItemEnd_comma]
                rw [show ('\n' :: (encItems (y :: ys) lvl ++
                    '\n' :: spacesChars k2 ++ ']' :: rest)) =
                  ['\n'] ++ encItems (y :: ys) lvl ++
                    '\n' :: spacesChars k2 ++ ']' :: rest from by simp]
                rw [ihi (y :: ys) lvl k2 ['\n'] rest false (by simp) hnd1.2 hwi2 (by decide)]
                rfl

theorem weightItems_le_aux :
    ∀ ys : List Val, (∀ v ∈ ys, ∀ l2 : Nat, Val.weight v ≤ (encVal v l2).length) →
      ∀ l2 : Nat, weightItems ys ≤ (encItems ys l2).length + 2 := by
  intro ys
  induction ys with
  | nil => intro _ _; simp [weightItems]
  | cons x ys ih =>
      intro h l2
      cases ys with
      | nil =>
          have hx := h x (List.mem_cons_self _ _) l2
          simp only [weightItems, encItems, List.length_append]
          omega
      | cons y ys2 =>
          have hx := h x (List.mem_cons_self _ _) l2
          have hr := ih (fun v hv => h v (List.mem_cons_of_mem _ hv)) l2
          simp only [weightItems, encItems, List.length_append, List.length_cons] at hr ⊢
          omega

theorem weightMembers_le_aux :
    ∀ ms : List (String × Val),
      (∀ kv ∈ ms, ∀ l2 : Nat, Val.weight kv.2 ≤ (encVal kv.2 l2).length) →
      ∀ l2 : Nat, weightMembers ms ≤ (encMembers ms l2).length + 2 := by
  intro ms
  induction ms with
  | nil => intro _ _; simp [weightMembers]
  | cons kv ms ih =>
      intro h l2
      obtain ⟨k1, v1⟩ := kv
      cases ms with
      | nil =>
          have hx := h (k1, v1) (List.mem_cons_self _ _) l2
          simp only [weightMembers, encMembers, List.length_append, List.length_cons] at hx ⊢
          omega
      | cons m2 ms2 =>
          have hx := h (k1, v1) (List.mem_cons_self _ _) l2
          have hr := ih (fun v hv => h v (List.mem_cons_of_mem _ hv)) l2
          simp only [weightMembers, encMembers, List.length_append, List.length_cons] at hx hr ⊢
          omega

theorem weight_le_encVal_length (v : Val) : ∀ lvl : Nat, Val.weight v ≤ (encVal v lvl).length := by
  induction v using Val.inductionOn with
  | hnull => intro lvl; simp [Val.weight, encVal]
  | hbool b => intro lvl; cases b <;> simp [Val.weight, encVal]
  | hint n =>
      intro lvl
      have h1 : intChars n ≠ [] := by
        rw [intChars]
        split
        · simp
        · exact natChars_ne_nil _
      cases hi : intChars n with
      | nil => exact absurd hi h1
      | cons d ds => simp [Val.weight, encVal, hi]
  | hstr s =>
      intro lvl
      simp [Val.weight, encVal, strLitChars]
  | hlist xs h =>
      intro lvl
      cases xs with
      | nil => simp [Val.weight, weightItems, encVal]
      | cons x xs2 =>
          have ha := weightItems_le_aux (x :: xs2) h (lvl + 1)
          simp only [Val.weight, encVal, List.length_cons, List.length_append] at ha ⊢
          omega
  | hdict es h =>
      intro lvl
      cases es with
      | nil => simp [Val.weight, weightMembers, encVal]
      | cons e es2 =>
          have ha := weightMembers_le_aux (e :: es2) h (lvl + 1)
          simp only [Val.weight, encVal, List.length_cons, List.length_append] at ha ⊢
          omega

/-- `json.loads` of `json.dumps(v, indent=2)` returns `v` for every value
whose objects have pairwise-distinct keys (every real Python dict does). -/
theorem jsonLoads_jsonDumps (v : Val) (h : Val.noDup v = true) :
    jsonLoads (jsonDumps v) = some v := by
  have hw := weight_le_encVal_length v 0
  have hp := (parse_enc ((encVal v 0).length + 1)).1 v 0 [] [] rfl h rfl (by omega)
  rw [List.nil_append, List.append_nil] at hp
  show ((parseValue ((String.mk (encVal v 0)).length + 1) (String.mk (encVal v 0)).data).bind
    fun p => if skipWs p.2 = [] then some p.1 else none) = some v
  rw [show (String.mk (encVal v 0)).length = (encVal v 0).length from rfl,
    show (String.mk (encVal v 0)).data = encVal v 0 from rfl, hp]
  rfl

/-! ## Exceptions

The exception kinds the code raises or lets escape
(cookiecutter/exceptions.py plus built-in Python exceptions). -/

inductive CCError where
  /-- `ContextDecodingException` (malformed variable-definition file). -/
  | contextDecoding (msg : String)
  /-- `OutputDirExistsException`, carrying the offending path. -/
  | outputDirExists (path : String)
  /-- `UndefinedVariableInTemplate(msg, error, context, name)`. -/
  | undefinedVarInTemplate (msg : String) (error : String) (context : Val) (name : String)
  /-- A jinja2 `TemplateSyntaxError`, re-raised with the source file name. -/
  | templateError (msg : String) (name : String)
  /-- A raw jinja2 `UndefinedError` that escapes unwrapped. -/
  | jinjaUndefined (msg : String)
  /-- `FailedHookException`. -/
  | failedHook (msg : String)
  /-- `NonTemplatedInputDirException` (no template found). -/
  | nonTemplatedInputDir
  /-- Python `TypeError`. -/
  | typeError (msg : String)
  /-- Python `ValueError`. -/
  | valueError (msg : String)
  /-- Python `OSError` / `IOError`. -/
  | ioError (msg : String)
  /-- Python `KeyError`. -/
  | keyError (key : String)

/-- Python truthiness of a JSON-like value (`if not context`). -/
def Val.falsy : Val → Bool
  | .null => true
  | .bool b => !b
  | .int n => n == 0
  | .str s => s.isEmpty
  | .list xs => xs.isEmpty
  | .dict es => es.isEmpty

/-! ## Replay store (cookiecutter/replay.py) -/

/-- `replay.get_file_name`: the basename of the template name, with a
`.json` suffix appended when missing, joined to the replay directory. -/
def get_file_name (replay_dir template_name : String) : String :=
  let file_name := String.mk ((splitChar '/' template_name.data).getLastD [])
  let file_name := if strEndsWith file_name ".json" then file_name else file_name ++ ".json"
  pathJoin replay_dir file_name

/-- `replay.dump`: reject a non-mapping or empty context, ensure the
replay directory exists, then write the pretty-printed JSON snapshot.
(The two Python isinstance checks collapse to the mapping-shape check in
this typed embedding.) -/
def dump (replay_dir template_name : String) (context : Val) (fs : FS) :
    Except CCError FS :=
  match context with
  | .dict entries =>
      if entries.isEmpty then
        .error (.valueError "Context is required to not be empty")
      else
        let fs1 := fs.mkdir replay_dir
        let replay_file := get_file_name replay_dir template_name
        .ok (fs1.writeFile replay_file (jsonDumps context))
  | _ => .error (.typeError "Context is required to be of type dict")

/-- `replay.load`: fail when the replay file is absent, parse its JSON
contents, and fail when the loaded context is falsy. -/
def load (replay_dir template_name : String) (fs : FS) : Except CCError Val :=
  let replay_file := get_file_name replay_dir template_name
  match fs.readFile replay_file with
  | none => .error (.ioError ("No replay file found at " ++ replay_file))
  | some content =>
      match jsonLoads content with
      | none => .error (.valueError "invalid JSON in replay file")
      | some context =>
          if context.falsy then
            .error (.valueError "Context is required to not be empty")
          else .ok context

theorem setFile_find (files : List (String × String)) (p c : String) :
    (setFile files p c).find? (fun f => f.1 = p) = some (p, c) := by
  induction files with
  | nil => simp [setFile]
  | cons f rest ih =>
      obtain ⟨p', c'⟩ := f
      by_cases h : p' = p
      · subst h
        simp [setFile]
      · simp only [setFile, if_neg h]
        rw [List.find?_cons_of_neg _ (by simpa using h)]
        exact ih

theorem readFile_writeFile (fs : FS) (p c : String) :
    (fs.writeFile p c).readFile p = some c := by
  simp only [FS.readFile, FS.writeFile, setFile_find]
  rfl

/-- C5: for every non-empty JSON-serializable dictionary context (a
mapping value whose objects carry pairwise-distinct keys, as every
Python dict does) and every template name, `dump(replay_dir, name, ctx)`
followed by `load(replay_dir, name)` returns a value equal to `ctx`. -/
theorem C5_replay_roundtrip (replay_dir template_name : String)
    (entries : List (String × Val)) (fs : FS) (hne : entries ≠ [])
    (hnd : Val.noDup (.dict entries) = true) :
    ∃ fs2, dump replay_dir template_name (.dict entries) fs = .ok fs2 ∧
      load replay_dir template_name fs2 = .ok (.dict entries) := by
  have hie : entries.isEmpty = false := by
    cases entries with
    | nil => exact absurd rfl hne
    | cons a l => rfl
  refine ⟨(fs.mkdir replay_dir).writeFile (get_file_name replay_dir template_name)
    (jsonDumps (.dict entries)), ?_, ?_⟩
  · simp only [dump, hie, Bool.false_eq_true, if_false]
  · simp only [load, readFile_writeFile, jsonLoads_jsonDumps _ hnd]
    simp only [Val.falsy, hie, Bool.false_eq_true, if_false]

/-- Witness for C5 at a concrete context and template name. -/
theorem C5_replay_roundtrip_witness :
    ∃ fs2, dump "/replay" "mytemplate" (.dict [("a", .str "x")]) ⟨[], []⟩ = .ok fs2 ∧
      load "/replay" "mytemplate" fs2 = .ok (.dict [("a", .str "x")]) :=
  C5_replay_roundtrip "/replay" "mytemplate" [("a", .str "x")] ⟨[], []⟩ (by simp)
    (by simp [Val.noDup, noDupMembers, nodupKeys, keysOf])



/-! ## Context builder and file generation (cookiecutter/generate.py) -/

/-- `fnmatch.fnmatch` over the glob subset the code exercises: `*`
matches any run of characters, `?` any single character, other
characters literally. -/
def fnmatchChars : List Char → List Char → Bool
  | [], [] => true
  | [], '*' :: ps => fnmatchChars [] ps
  | [], _ :: _ => false
  | _ :: _, [] => false
  | c :: srest, p :: ps =>
      if p = '*' then fnmatchChars (c :: srest) ps || fnmatchChars srest (p :: ps)
      else if p = '?' then fnmatchChars srest ps
      else (c = p) && fnmatchChars srest ps
termination_by s p => s.length + p.length

/-- `generate.is_copy_only_path`: `path` matches one of the patterns in
the private copy-without-render list of the context. -/
def is_copy_only_path (path : String) (context : Val) : Bool :=
  match context with
  | .dict es =>
      match lookupKey es "cookiecutter" with
      | some (.dict cc) =>
          match lookupKey cc "_copy_without_render" with
          | some (.list patterns) =>
              patterns.any (fun pat =>
                match pat with
                | .str p => fnmatchChars path.data p.data
                | _ => false)
          | _ => false
      | _ => false
  | _ => false

mutual

/-- `generate.apply_overwrites_to_context`, on the overwrite side: walk
the items of the overwrite mapping; a mapping value recurses into the
existing sub-mapping (creating it when the key is absent), any other
value overwrites outright. Recursing into (or assigning on) an existing
non-mapping value raises `TypeError`, as the Python `context[key]`
item assignment / containment test does on such a value. -/
def applyOverwrites : Val → Val → Except CCError Val
  | context, .dict oEntries => applyOverwritesGo context oEntries
  | _, _ => .error (.typeError "overwrite context is not iterable as a mapping")

/-- The item loop of `apply_overwrites_to_context`. -/
def applyOverwritesGo : Val → List (String × Val) → Except CCError Val
  | context, [] => .ok context
  | context, (key, value) :: rest =>
      match context with
      | .dict cEntries =>
          match value with
          | .dict _ =>
              let sub :=
                match lookupKey cEntries key with
                | some s => s
                | none => .dict []
              (applyOverwrites sub value).bind (fun sub2 =>
                applyOverwritesGo (.dict (setKey cEntries key sub2)) rest)
          | _ => applyOverwritesGo (.dict (setKey cEntries key value)) rest
      | _ => .error (.typeError "object does not support item assignment")

end

/-- One `if default_context: apply_overwrites_to_context(...)` guard of
`generate_context`: apply the overwrite set only when it is truthy. -/
def applyIfTruthy (obj : Val) (ctx : Option Val) : Except CCError Val :=
  match ctx with
  | some dc => if dc.falsy then .ok obj else applyOverwrites obj dc
  | none => .ok obj

/-- `generate.generate_context`: read and JSON-decode the
variable-definition file (a decoding failure raises
`ContextDecodingException` wrapping the parser complaint), wrap the
result under the reserved `cookiecutter` key, then apply the defaults
and the overrides in that order via the recursive overwrite. -/
def generate_context (fs : FS) (context_file : String)
    (default_context extra_context : Option Val) : Except CCError Val :=
  match fs.readFile context_file with
  | none => .error (.ioError ("No such file or directory: " ++ context_file))
  | some raw =>
      match jsonLoads raw with
      | none =>
          .error (.contextDecoding
            ("JSON decoding error while loading \"" ++ context_file ++ "\""))
      | some obj =>
          (applyIfTruthy obj default_context).bind (fun obj2 =>
            (applyIfTruthy obj2 extra_context).map
              (fun obj3 => .dict [("cookiecutter", obj3)]))

/-- A pipeline result carrying the filesystem through success and
failure, so that partial writes and cleanup are observable. -/
inductive GenResult (α : Type) where
  | ok (a : α) (fs : FS)
  | fail (e : CCError) (fs : FS)

/-- A raw render failure escaping as the corresponding Python
exception: `UndefinedError`, or `TemplateSyntaxError`. -/
def renderErrToCC : RenderErr → CCError
  | .undef m => .jinjaUndefined m
  | .badTemplate m => .templateError m ""

/-- The keyword arguments of `template.render(**context)`. -/
def kwargsOf : Val → List (String × Val)
  | .dict es => es
  | _ => []

/-- `os.path.dirname`. -/
def dirnameOf (p : String) : String :=
  String.intercalate "/" ((splitChar '/' p.data).dropLast.map String.mk)

/-- Content sniffing of the binaryornot collaborator, modelled as a
NUL-byte test (the spec itself calls the heuristic indeterminate). -/
def isBinaryContent (content : String) : Bool := content.data.contains (Char.ofNat 0)

/-- `generate.generate_file`: render the relative source path into the
destination path (an undefined variable here escapes as a raw
`UndefinedError` — this render is outside the try block), honor
skip-if-exists, create the missing parent directory, copy binary or
copy-only sources verbatim, and otherwise render the contents, where an
undefined variable raises `UndefinedVariableInTemplate` naming the
destination file and a template syntax error is re-raised naming the
source file. The source contents arrive with the walk enumeration. -/
def generate_file (project_dir : String) (infile : String) (content : String)
    (context : Val) (env : JEnv) (skip_if_file_exists : Bool) (fs : FS) :
    GenResult Unit :=
  match env.render infile (kwargsOf context) with
  | .error e => .fail (renderErrToCC e) fs
  | .ok outfile =>
      let outfile_path := pathJoin project_dir outfile
      if skip_if_file_exists && fs.pathExists outfile_path then .ok () fs
      else
        let parent_dir := dirnameOf outfile_path
        let fs := if parent_dir ≠ "" && !fs.pathExists parent_dir then
            fs.mkdir parent_dir
          else fs
        if isBinaryContent content || is_copy_only_path infile context then
          .ok () (fs.writeFile outfile_path content)
        else
          match env.render content (kwargsOf context) with
          | .error (.undef m) =>
              .fail (.undefinedVarInTemplate
                ("Unable to create file " ++ outfile ++ ": " ++ m) m context outfile) fs
          | .error (.badTemplate m) => .fail (.templateError m infile) fs
          | .ok rendered_file => .ok () (fs.writeFile outfile_path rendered_file)

/-- `generate.render_and_create_dir`: render the directory-name
template, then, if the target exists, delete it recursively under
overwrite or raise `OutputDirExistsException` naming it; finally create
the directory and return its path. (`os.path.normpath` is modelled as
the identity on the already-normal paths of the model.) -/
def render_and_create_dir (dirname : String) (context : Val) (output_dir : String)
    (environment : JEnv) (overwrite_if_exists : Bool) (fs : FS) :
    GenResult String :=
  match environment.render dirname (kwargsOf context) with
  | .error e => .fail (renderErrToCC e) fs
  | .ok rendered_dirname =>
      let dir_to_create := pathJoin output_dir rendered_dirname
      if fs.pathExists dir_to_create then
        if overwrite_if_exists then
          let fs := fs.rmtree dir_to_create
          .ok dir_to_create (fs.mkdir dir_to_create)
        else .fail (.outputDirExists dir_to_create) fs
      else .ok dir_to_create (fs.mkdir dir_to_create)

/-- `generate._run_hook_from_repo_dir`: run the hook (whose subprocess
outcome is external input to the model); on any failure delete the
project directory when asked to, then re-raise. -/
def runHookFromRepoDir (outcome : Except CCError Unit) (project_dir : String)
    (delete_project_on_failure : Bool) (fs : FS) : GenResult Unit :=
  match outcome with
  | .ok () => .ok () fs
  | .error e =>
      if delete_project_on_failure then .fail e (fs.rmtree project_dir)
      else .fail e fs

/-- The file loop of the `os.walk` phase of `generate.generate_files`:
each enumerated file goes through `generate_file`; an
`UndefinedVariableInTemplate` failure deletes the output directory
(unless keep-on-failure) and re-raises, any other failure propagates
without cleanup. The enumeration lists the files `os.walk` yields from
the template root — relative paths joined from `.`, with directories
and files whose names start with `.` or `_` already pruned, files of a
directory before those of its subdirectories. -/
def generateFilesLoop (project_dir : String) (context : Val) (env : JEnv)
    (skip_if_file_exists keep_project_on_failure : Bool) :
    List (String × String) → FS → GenResult Unit
  | [], fs => .ok () fs
  | (infile, content) :: rest, fs =>
      match generate_file project_dir infile content context env skip_if_file_exists fs with
      | .ok _ fs2 =>
          generateFilesLoop project_dir context env skip_if_file_exists
            keep_project_on_failure rest fs2
      | .fail (.undefinedVarInTemplate m er ctx nm) fs2 =>
          if keep_project_on_failure then
            .fail (.undefinedVarInTemplate m er ctx nm) fs2
          else
            .fail (.undefinedVarInTemplate m er ctx nm) (fs2.rmtree project_dir)
      | .fail e fs2 => .fail e fs2

/-- `context['cookiecutter']['_template']` as `generate_files` reads it
for the output directory name. -/
def templateNameOf (context : Val) : Except CCError String :=
  match context with
  | .dict es =>
      match lookupKey es "cookiecutter" with
      | some (.dict cc) =>
          match lookupKey cc "_template" with
          | some (.str s) => .ok s
          | some _ => .error (.typeError "directory name template is not a string")
          | none => .error (.keyError "_template")
      | some _ => .error (.typeError "context[cookiecutter] is not a mapping")
      | none => .error (.keyError "cookiecutter")
  | _ => .error (.typeError "context is not a mapping")

/-- The call `find_template(repo_dir)` that `generate_files` makes with
a single positional argument (generate.py line 213), while
`find_template` declares two required parameters `repo_dir` and `env`
with no defaults (find.py line 9): Python raises `TypeError` at the
call site, before the body of `find_template` runs. -/
def findTemplateMissingEnvCall (_repo_dir : String) : Except CCError String :=
  .error (.typeError "find_template() missing 1 required positional argument: env")

/-- `generate.generate_files`: build the render environment, locate the
template directory (a call that, as written, always raises `TypeError`
— see `findTemplateMissingEnvCall`), create the project directory, run
the pre-generation hook, walk and render the template files, run the
post-generation hook, and return the project directory. The hook
subprocess outcomes and the (pruned) walk enumeration of the template
tree are inputs of the model. -/
def generate_files (repo_dir : String) (context : Val) (output_dir : String)
    (overwrite_if_exists skip_if_file_exists accept_hooks keep_project_on_failure : Bool)
    (templateFiles : List (String × String)) (preHook postHook : Except CCError Unit)
    (fs : FS) : GenResult String :=
  let env := create_env_with_context context
  match findTemplateMissingEnvCall repo_dir with
  | .error e => .fail e fs
  | .ok _template_dir =>
      match templateNameOf context with
      | .error e => .fail e fs
      | .ok dirname =>
          match render_and_create_dir dirname context output_dir env
              overwrite_if_exists fs with
          | .fail e fs2 => .fail e fs2
          | .ok project_dir fs2 =>
              let preRes : GenResult Unit :=
                if accept_hooks then
                  runHookFromRepoDir preHook project_dir
                    (!keep_project_on_failure) fs2
                else .ok () fs2
              match preRes with
              | .fail e fs3 => .fail e fs3
              | .ok _ fs3 =>
                  match generateFilesLoop project_dir context env skip_if_file_exists
                      keep_project_on_failure templateFiles fs3 with
                  | .fail e fs4 => .fail e fs4
                  | .ok _ fs4 =>
                      let postRes : GenResult Unit :=
                        if accept_hooks then
                          runHookFromRepoDir postHook project_dir
                            (!keep_project_on_failure) fs4
                        else .ok () fs4
                      match postRes with
                      | .fail e fs5 => .fail e fs5
                      | .ok _ fs5 => .ok project_dir fs5


theorem mkdir_dirExists_self (fs : FS) (p : String) : (fs.mkdir p).dirExists p = true := by
  by_cases h : fs.dirExists p = true
  · simp [FS.mkdir, h]
  · simp only [FS.mkdir, h, Bool.not_eq_true] at *
    simp [FS.dirExists, h]

theorem rmtree_not_exists (fs : FS) (root : String) :
    (fs.rmtree root).pathExists root = false := by
  have hself : isUnder root root = true := by simp [isUnder]
  simp only [FS.pathExists, FS.rmtree, FS.dirExists, FS.fileExists, Bool.or_eq_false_iff]
  constructor
  · by_contra hc
    rw [Bool.not_eq_false] at hc
    have hm := List.mem_of_elem_eq_true hc
    rw [List.mem_filter] at hm
    rw [hself] at hm
    exact Bool.false_ne_true hm.2
  · by_contra hc
    rw [Bool.not_eq_false, List.any_eq_true] at hc
    obtain ⟨f, hf, hfp⟩ := hc
    rw [List.mem_filter] at hf
    rw [show f.1 = root from by simpa using hfp, hself] at hf
    exact Bool.false_ne_true hf.2

theorem rmtree_mkdir_not_under (fs : FS) (root q : String)
    (hq : isUnder root q = true) (hne : q ≠ root) :
    ((fs.rmtree root).mkdir root).pathExists q = false := by
  simp only [FS.pathExists, FS.mkdir, FS.rmtree, FS.dirExists, FS.fileExists,
    Bool.or_eq_false_iff]
  constructor
  · split
    all_goals
      by_contra hc
      rw [Bool.not_eq_false] at hc
      have hm := List.mem_of_elem_eq_true hc
    · rw [List.mem_filter, hq] at hm
      exact Bool.false_ne_true hm.2
    · rw [List.mem_append, List.mem_singleton] at hm
      cases hm with
      | inl hm =>
          rw [List.mem_filter, hq] at hm
          exact Bool.false_ne_true hm.2
      | inr hm => exact hne hm
  · split
    all_goals
      by_contra hc
      rw [Bool.not_eq_false, List.any_eq_true] at hc
      obtain ⟨f, hf, hfp⟩ := hc
      rw [List.mem_filter] at hf
      rw [show f.1 = q from by simpa using hfp, hq] at hf
      exact Bool.false_ne_true hf.2

/-- C9: every call to `generate_files` raises `TypeError` before the
output project directory is created: it invokes `find_template` with
only the repository-directory argument while `find_template` requires a
second environment parameter with no default, so no invocation reaches
directory creation, hook execution, or file rendering, and the
filesystem comes back unchanged. -/
theorem C9_generate_files_always_type_error (repo_dir : String) (context : Val)
    (output_dir : String) (overwrite skip hooks keep : Bool)
    (templateFiles : List (String × String)) (preHook postHook : Except CCError Unit)
    (fs : FS) :
    generate_files repo_dir context output_dir overwrite skip hooks keep
        templateFiles preHook postHook fs =
      .fail (.typeError "find_template() missing 1 required positional argument: env") fs :=
  rfl

/-- C3: whenever the file-rendering walk of `generate_files` stops with
the undefined-variable-in-template condition and keep-on-failure was not
requested, the output project directory does not exist in the resulting
filesystem, no matter how many files were already written. -/
theorem C3_undefined_variable_cleanup (files : List (String × String))
    (project_dir : String) (context : Val) (env : JEnv) (skip : Bool)
    (fs fs2 : FS) (m er : String) (ctx : Val) (nm : String)
    (h : generateFilesLoop project_dir context env skip false files fs =
      .fail (.undefinedVarInTemplate m er ctx nm) fs2) :
    fs2.pathExists project_dir = false := by
  induction files generalizing fs with
  | nil => exact absurd h (by simp [generateFilesLoop])
  | cons file rest ih =>
      obtain ⟨infile, content⟩ := file
      rw [generateFilesLoop] at h
      cases hg : generate_file project_dir infile content context env skip fs with
      | ok a fs3 =>
          rw [hg] at h
          exact ih fs3 h
      | fail e fs3 =>
          rw [hg] at h
          cases e with
          | undefinedVarInTemplate m3 er3 ctx3 nm3 =>
              simp only [Bool.false_eq_true, if_false, GenResult.fail.injEq] at h
              rw [← h.2]
              exact rmtree_not_exists fs3 project_dir
          | contextDecoding msg => simp at h
          | outputDirExists p => simp at h
          | templateError msg nm4 => simp at h
          | jinjaUndefined msg => simp at h
          | failedHook msg => simp at h
          | nonTemplatedInputDir => simp at h
          | typeError msg => simp at h
          | valueError msg => simp at h
          | ioError msg => simp at h
          | keyError key => simp at h

/-- Witness for C3: a two-file template whose second file references a
missing variable; the first file is already written, the failure deletes
the whole output directory. -/
theorem C3_undefined_variable_cleanup_witness :
    generateFilesLoop "/o" (Val.dict [("cookiecutter", Val.dict [])]) ⟨[]⟩ false false
        [("./good.txt", "hello"), ("./bad.txt", "{{cookiecutter.missing}}")]
        ⟨["/o"], []⟩ =
      .fail (.undefinedVarInTemplate
        "Unable to create file ./bad.txt: dict object has no attribute missing"
        "dict object has no attribute missing" (Val.dict [("cookiecutter", Val.dict [])])
        "./bad.txt") ⟨[], []⟩ ∧
    FS.pathExists ⟨[], []⟩ "/o" = false :=
  ⟨rfl, C3_undefined_variable_cleanup
    [("./good.txt", "hello"), ("./bad.txt", "{{cookiecutter.missing}}")] "/o"
    (Val.dict [("cookiecutter", Val.dict [])]) ⟨[]⟩ false ⟨["/o"], []⟩ ⟨[], []⟩
    "Unable to create file ./bad.txt: dict object has no attribute missing"
    "dict object has no attribute missing" (Val.dict [("cookiecutter", Val.dict [])])
    "./bad.txt" rfl⟩

/-- C6: when `generate_files` renders the output directory name and the
target path already exists, overwrite deletes the existing tree
recursively and recreates the directory (the fresh directory exists and
nothing remains beneath it), while without overwrite the call fails
with the output-directory-exists condition naming that path and returns
the filesystem unchanged. -/
theorem C6_existing_output_dir (dirname : String) (context : Val) (output_dir : String)
    (env : JEnv) (fs : FS) (rendered : String)
    (hr : env.render dirname (kwargsOf context) = .ok rendered)
    (hx : fs.pathExists (pathJoin output_dir rendered) = true) :
    (∃ fs2, render_and_create_dir dirname context output_dir env true fs =
        .ok (pathJoin output_dir rendered) fs2 ∧
      fs2.dirExists (pathJoin output_dir rendered) = true ∧
      ∀ q, isUnder (pathJoin output_dir rendered) q = true →
        q ≠ pathJoin output_dir rendered → fs2.pathExists q = false) ∧
    render_and_create_dir dirname context output_dir env false fs =
      .fail (.outputDirExists (pathJoin output_dir rendered)) fs := by
  constructor
  · refine ⟨(fs.rmtree (pathJoin output_dir rendered)).mkdir (pathJoin output_dir rendered),
      ?_, ?_, ?_⟩
    · simp only [render_and_create_dir, hr, hx, if_true]
    · exact mkdir_dirExists_self _ _
    · intro q hq hne
      exact rmtree_mkdir_not_under _ _ _ hq hne
  · simp only [render_and_create_dir, hr, hx, Bool.false_eq_true, if_true, if_false]

/-- Witness for C6: the literal directory name `proj` under `/out`
already exists. -/
theorem C6_existing_output_dir_witness :
    (∃ fs2, render_and_create_dir "proj" (Val.dict []) "/out" ⟨[]⟩ true
        ⟨["/out", "/out/proj", "/out/proj/sub"], []⟩ =
        .ok (pathJoin "/out" "proj") fs2 ∧
      fs2.dirExists (pathJoin "/out" "proj") = true ∧
      ∀ q, isUnder (pathJoin "/out" "proj") q = true →
        q ≠ pathJoin "/out" "proj" → fs2.pathExists q = false) ∧
    render_and_create_dir "proj" (Val.dict []) "/out" ⟨[]⟩ false
        ⟨["/out", "/out/proj", "/out/proj/sub"], []⟩ =
      .fail (.outputDirExists (pathJoin "/out" "proj"))
        ⟨["/out", "/out/proj", "/out/proj/sub"], []⟩ :=
  C6_existing_output_dir "proj" (Val.dict []) "/out" ⟨[]⟩
    ⟨["/out", "/out/proj", "/out/proj/sub"], []⟩ "proj" rfl rfl

theorem lookupKey_setKey_self (l : List (String × Val)) (k : String) (v : Val) :
    lookupKey (setKey l k v) k = some v := by
  induction l with
  | nil => simp [setKey, lookupKey]
  | cons kv rest ih =>
      obtain ⟨k1, v1⟩ := kv
      by_cases h : k1 = k
      · subst h; simp [setKey, lookupKey]
      · simp [setKey, lookupKey, h, ih]

theorem lookupKey_setKey_other (l : List (String × Val)) (k k2 : String) (v : Val)
    (h : k2 ≠ k) : lookupKey (setKey l k v) k2 = lookupKey l k2 := by
  induction l with
  | nil => simp [setKey, lookupKey, Ne.symm h]
  | cons kv rest ih =>
      obtain ⟨k1, v1⟩ := kv
      by_cases h1 : k1 = k
      · subst h1
        have hne : k1 ≠ k2 := fun e => h (e.symm)
        simp [setKey, lookupKey, hne]
      · simp only [setKey, if_neg h1, lookupKey]
        by_cases h2 : k1 = k2
        · simp [h2]
        · simp [h2, ih]

theorem lookupKey_none_ne (l : List (String × Val)) (k : String)
    (h : lookupKey l k = none) : ∀ kv ∈ l, kv.1 ≠ k := by
  induction l with
  | nil => intro kv hkv; cases hkv
  | cons kv2 rest ih =>
      intro kv hkv
      obtain ⟨k1, v1⟩ := kv2
      by_cases h1 : k1 = k
      · subst h1; simp [lookupKey] at h
      · rw [List.mem_cons] at hkv
        cases hkv with
        | inl e => subst e; exact h1
        | inr hm =>
            apply ih _ kv hm
            simpa [lookupKey, h1] using h

theorem applyOverwritesGo_dict (entries : List (String × Val)) :
    ∀ (c : List (String × Val)) (r : Val),
      applyOverwritesGo (.dict c) entries = .ok r →
      ∃ rEntries, r = .dict rEntries := by
  induction entries with
  | nil =>
      intro c r h
      have h2 : (Except.ok (Val.dict c) : Except CCError Val) = .ok r := h
      exact ⟨c, by injection h2 with h3; rw [← h3]⟩
  | cons kv rest ih =>
      intro c r h
      obtain ⟨k1, v1⟩ := kv
      cases v1 with
      | dict d1 =>
          have h2 : (applyOverwrites
              (match lookupKey c k1 with | some s => s | none => .dict []) (.dict d1)).bind
              (fun sub2 => applyOverwritesGo (.dict (setKey c k1 sub2)) rest) = .ok r := h
          cases hs : applyOverwrites
              (match lookupKey c k1 with | some s => s | none => .dict []) (.dict d1) with
          | error e =>
              rw [hs] at h2
              have h3 : (Except.error e : Except CCError Val) = .ok r := h2
              simp at h3
          | ok sub2 =>
              rw [hs] at h2
              exact ih _ _ h2
      | null => exact ih _ _ h
      | bool b => exact ih _ _ h
      | int n => exact ih _ _ h
      | str s => exact ih _ _ h
      | list xs => exact ih _ _ h

theorem applyOverwritesGo_preserve (entries : List (String × Val)) :
    ∀ (c r : List (String × Val)),
      applyOverwritesGo (.dict c) entries = .ok (.dict r) →
      ∀ k, (∀ kv ∈ entries, kv.1 ≠ k) → lookupKey r k = lookupKey c k := by
  induction entries with
  | nil =>
      intro c r h k _
      have h2 : (Except.ok (Val.dict c) : Except CCError Val) = .ok (.dict r) := h
      simp only [Except.ok.injEq, Val.dict.injEq] at h2
      rw [h2]
  | cons kv rest ih =>
      intro c r h k hne
      obtain ⟨k1, v1⟩ := kv
      have hk1 : k1 ≠ k := hne (k1, v1) (List.mem_cons_self _ _)
      have hrest : ∀ kv ∈ rest, kv.1 ≠ k := fun kv hkv => hne kv (List.mem_cons_of_mem _ hkv)
      cases v1 with
      | dict d1 =>
          have h2 : (applyOverwrites
              (match lookupKey c k1 with | some s => s | none => .dict []) (.dict d1)).bind
              (fun sub2 => applyOverwritesGo (.dict (setKey c k1 sub2)) rest) =
              .ok (.dict r) := h
          cases hs : applyOverwrites
              (match lookupKey c k1 with | some s => s | none => .dict []) (.dict d1) with
          | error e =>
              rw [hs] at h2
              have h3 : (Except.error e : Except CCError Val) = .ok (.dict r) := h2
              simp at h3
          | ok sub2 =>
              rw [hs] at h2
              rw [ih _ _ h2 k hrest]
              exact lookupKey_setKey_other _ _ _ _ (fun e => hk1 e.symm)
      | null =>
          rw [ih _ _ h k hrest]
          exact lookupKey_setKey_other _ _ _ _ (fun e => hk1 e.symm)
      | bool b =>
          rw [ih _ _ h k hrest]
          exact lookupKey_setKey_other _ _ _ _ (fun e => hk1 e.symm)
      | int n =>
          rw [ih _ _ h k hrest]
          exact lookupKey_setKey_other _ _ _ _ (fun e => hk1 e.symm)
      | str s =>
          rw [ih _ _ h k hrest]
          exact lookupKey_setKey_other _ _ _ _ (fun e => hk1 e.symm)
      | list xs =>
          rw [ih _ _ h k hrest]
          exact lookupKey_setKey_other _ _ _ _ (fun e => hk1 e.symm)

theorem keys_contains_false_ne (l : List (String × Val)) (k : String)
    (h : (keysOf l).contains k = false) : ∀ kv ∈ l, kv.1 ≠ k := by
  intro kv hkv e
  have hm : kv.1 ∈ keysOf l := List.mem_map_of_mem Prod.fst hkv
  rw [e] at hm
  have h2 : (keysOf l).elem k = false := h
  rw [List.elem_eq_true_of_mem hm] at h2
  exact Bool.false_ne_true h2.symm

theorem nodupKeys_cons (k1 : String) (v1 : Val) (rest : List (String × Val))
    (h : nodupKeys (keysOf ((k1, v1) :: rest)) = true) :
    (∀ kv ∈ rest, kv.1 ≠ k1) ∧ nodupKeys (keysOf rest) = true := by
  simp only [keysOf, List.map_cons, nodupKeys, Bool.and_eq_true, Bool.not_eq_true'] at h
  exact ⟨keys_contains_false_ne rest k1 h.1, h.2⟩

theorem applyOverwritesGo_leaf (entries : List (String × Val)) :
    ∀ (c r : List (String × Val)) (k : String) (v : Val),
      applyOverwritesGo (.dict c) entries = .ok (.dict r) →
      lookupKey entries k = some v → (∀ es, v ≠ .dict es) →
      nodupKeys (keysOf entries) = true →
      lookupKey r k = some v := by
  induction entries with
  | nil => intro c r k v _ hl _ _; simp [lookupKey] at hl
  | cons kv rest ih =>
      intro c r k v h hl hnd hndk
      obtain ⟨k1, v1⟩ := kv
      obtain ⟨hk1rest, hndk2⟩ := nodupKeys_cons k1 v1 rest hndk
      by_cases hk : k1 = k
      · subst hk
        rw [lookupKey, if_pos rfl] at hl
        injection hl with hv
        subst hv
        cases v1 with
        | dict d1 => exact absurd rfl (hnd d1)
        | null =>
            rw [applyOverwritesGo_preserve rest _ _ h k1 hk1rest, lookupKey_setKey_self]
        | bool b =>
            rw [applyOverwritesGo_preserve rest _ _ h k1 hk1rest, lookupKey_setKey_self]
        | int n =>
            rw [applyOverwritesGo_preserve rest _ _ h k1 hk1rest, lookupKey_setKey_self]
        | str s =>
            rw [applyOverwritesGo_preserve rest _ _ h k1 hk1rest, lookupKey_setKey_self]
        | list xs =>
            rw [applyOverwritesGo_preserve rest _ _ h k1 hk1rest, lookupKey_setKey_self]
      · rw [lookupKey, if_neg hk] at hl
        cases v1 with
        | dict d1 =>
            have h2 : (applyOverwrites
                (match lookupKey c k1 with | some s => s | none => .dict []) (.dict d1)).bind
                (fun sub2 => applyOverwritesGo (.dict (setKey c k1 sub2)) rest) =
                .ok (.dict r) := h
            cases hs : applyOverwrites
                (match lookupKey c k1 with | some s => s | none => .dict []) (.dict d1) with
            | error e =>
                rw [hs] at h2
                have h3 : (Except.error e : Except CCError Val) = .ok (.dict r) := h2
                simp at h3
            | ok sub2 =>
                rw [hs] at h2
                exact ih _ _ _ _ h2 hl hnd hndk2
        | null => exact ih _ _ _ _ h hl hnd hndk2
        | bool b => exact ih _ _ _ _ h hl hnd hndk2
        | int n => exact ih _ _ _ _ h hl hnd hndk2
        | str s => exact ih _ _ _ _ h hl hnd hndk2
        | list xs => exact ih _ _ _ _ h hl hnd hndk2

theorem applyOverwritesGo_dictval (entries : List (String × Val)) :
    ∀ (c r : List (String × Val)) (k : String) (od s1 : List (String × Val)),
      applyOverwritesGo (.dict c) entries = .ok (.dict r) →
      lookupKey entries k = some (.dict od) →
      lookupKey c k = some (.dict s1) →
      nodupKeys (keysOf entries) = true →
      ∃ s2, applyOverwrites (.dict s1) (.dict od) = .ok (.dict s2) ∧
        lookupKey r k = some (.dict s2) := by
  induction entries with
  | nil => intro c r k od s1 _ hl _ _; simp [lookupKey] at hl
  | cons kv rest ih =>
      intro c r k od s1 h hl hc hndk
      obtain ⟨k1, v1⟩ := kv
      obtain ⟨hk1rest, hndk2⟩ := nodupKeys_cons k1 v1 rest hndk
      by_cases hk : k1 = k
      · subst hk
        rw [lookupKey, if_pos rfl] at hl
        injection hl with hv
        subst hv
        have h2 : (applyOverwrites
            (match lookupKey c k1 with | some s => s | none => .dict []) (.dict od)).bind
            (fun sub2 => applyOverwritesGo (.dict (setKey c k1 sub2)) rest) =
            .ok (.dict r) := h
        rw [hc] at h2
        cases hs : applyOverwrites (.dict s1) (.dict od) with
        | error e =>
            rw [hs] at h2
            have h3 : (Except.error e : Except CCError Val) = .ok (.dict r) := h2
            simp at h3
        | ok sub2 =>
            rw [hs] at h2
            obtain ⟨s2, rfl⟩ := applyOverwritesGo_dict od s1 sub2 hs
            refine ⟨s2, rfl, ?_⟩
            rw [applyOverwritesGo_preserve rest _ _ h2 k1 hk1rest, lookupKey_setKey_self]
      · rw [lookupKey, if_neg hk] at hl
        have hc2 : ∀ w, lookupKey (setKey c k1 w) k = some (.dict s1) := by
          intro w
          rw [lookupKey_setKey_other _ _ _ _ (fun e => hk e.symm)]
          exact hc
        cases v1 with
        | dict d1 =>
            have h2 : (applyOverwrites
                (match lookupKey c k1 with | some s => s | none => .dict []) (.dict d1)).bind
                (fun sub2 => applyOverwritesGo (.dict (setKey c k1 sub2)) rest) =
                .ok (.dict r) := h
            cases hs : applyOverwrites
                (match lookupKey c k1 with | some s => s | none => .dict []) (.dict d1) with
            | error e =>
                rw [hs] at h2
                have h3 : (Except.error e : Except CCError Val) = .ok (.dict r) := h2
                simp at h3
            | ok sub2 =>
                rw [hs] at h2
                exact ih _ _ _ _ _ h2 hl (hc2 sub2) hndk2
        | null => exact ih _ _ _ _ _ h hl (hc2 _) hndk2
        | bool b => exact ih _ _ _ _ _ h hl (hc2 _) hndk2
        | int n => exact ih _ _ _ _ _ h hl (hc2 _) hndk2
        | str s => exact ih _ _ _ _ _ h hl (hc2 _) hndk2
        | list xs => exact ih _ _ _ _ _ h hl (hc2 _) hndk2

theorem applyOverwritesGo_default_merge (entries : List (String × Val)) :
    ∀ (c r : List (String × Val)) (k : String) (dd : List (String × Val))
      (k2 : String) (v2 : Val),
      applyOverwritesGo (.dict c) entries = .ok (.dict r) →
      lookupKey entries k = some (.dict dd) →
      lookupKey dd k2 = some v2 → (∀ es, v2 ≠ .dict es) →
      nodupKeys (keysOf entries) = true → nodupKeys (keysOf dd) = true →
      ∃ s1, lookupKey r k = some (.dict s1) ∧ lookupKey s1 k2 = some v2 := by
  induction entries with
  | nil => intro c r k dd k2 v2 _ hl _ _ _ _; simp [lookupKey] at hl
  | cons kv rest ih =>
      intro c r k dd k2 v2 h hl hk2 hv2 hndk hnddd
      obtain ⟨k1, v1⟩ := kv
      obtain ⟨hk1rest, hndk2⟩ := nodupKeys_cons k1 v1 rest hndk
      by_cases hk : k1 = k
      · subst hk
        rw [lookupKey, if_pos rfl] at hl
        injection hl with hv
        subst hv
        have h2 : (applyOverwrites
            (match lookupKey c k1 with | some s => s | none => .dict []) (.dict dd)).bind
            (fun sub2 => applyOverwritesGo (.dict (setKey c k1 sub2)) rest) =
            .ok (.dict r) := h
        have hddne : dd ≠ [] := by
          intro e
          rw [e] at hk2
          simp [lookupKey] at hk2
        have hmain : ∀ (sub0 : List (String × Val)),
            (applyOverwrites (.dict sub0) (.dict dd)).bind
              (fun sub2 => applyOverwritesGo (.dict (setKey c k1 sub2)) rest) =
              .ok (.dict r) →
            ∃ s1, lookupKey r k1 = some (.dict s1) ∧ lookupKey s1 k2 = some v2 := by
          intro sub0 h3
          cases hs : applyOverwrites (.dict sub0) (.dict dd) with
          | error e =>
              rw [hs] at h3
              have h4 : (Except.error e : Except CCError Val) = .ok (.dict r) := h3
              simp at h4
          | ok sub2 =>
              rw [hs] at h3
              obtain ⟨s1, rfl⟩ := applyOverwritesGo_dict dd sub0 sub2 hs
              refine ⟨s1, ?_, ?_⟩
              · rw [applyOverwritesGo_preserve rest _ _ h3 k1 hk1rest, lookupKey_setKey_self]
              · exact applyOverwritesGo_leaf dd sub0 s1 k2 v2 hs hk2 hv2 hnddd
        cases hc : lookupKey c k1 with
        | none =>
            rw [hc] at h2
            exact hmain [] h2
        | some sub =>
            rw [hc] at h2
            cases sub with
            | dict f1 => exact hmain f1 h2
            | null =>
                cases dd with
                | nil => exact absurd rfl hddne
                | cons d1 drest =>
                    have h4 : (Except.error (CCError.typeError
                        "object does not support item assignment") : Except CCError Val).bind
                        (fun sub2 => applyOverwritesGo (.dict (setKey c k1 sub2)) rest) =
                        .ok (.dict r) := h2
                    simp [Except.bind] at h4
            | bool b =>
                cases dd with
                | nil => exact absurd rfl hddne
                | cons d1 drest =>
                    have h4 : (Except.error (CCError.typeError
                        "object does not support item assignment") : Except CCError Val).bind
                        (fun sub2 => applyOverwritesGo (.dict (setKey c k1 sub2)) rest) =
                        .ok (.dict r) := h2
                    simp [Except.bind] at h4
            | int n =>
                cases dd with
                | nil => exact absurd rfl hddne
                | cons d1 drest =>
                    have h4 : (Except.error (CCError.typeError
                        "object does not support item assignment") : Except CCError Val).bind
                        (fun sub2 => applyOverwritesGo (.dict (setKey c k1 sub2)) rest) =
                        .ok (.dict r) := h2
                    simp [Except.bind] at h4
            | str s =>
                cases dd with
                | nil => exact absurd rfl hddne
                | cons d1 drest =>
                    have h4 : (Except.error (CCError.typeError
                        "object does not support item assignment") : Except CCError Val).bind
                        (fun sub2 => applyOverwritesGo (.dict (setKey c k1 sub2)) rest) =
                        .ok (.dict r) := h2
                    simp [Except.bind] at h4
            | list xs =>
                cases dd with
                | nil => exact absurd rfl hddne
                | cons d1 drest =>
                    have h4 : (Except.error (CCError.typeError
                        "object does not support item assignment") : Except CCError Val).bind
                        (fun sub2 => applyOverwritesGo (.dict (setKey c k1 sub2)) rest) =
                        .ok (.dict r) := h2
                    simp [Except.bind] at h4
      · rw [lookupKey, if_neg hk] at hl
        cases v1 with
        | dict d1 =>
            have h2 : (applyOverwrites
                (match lookupKey c k1 with | some s => s | none => .dict []) (.dict d1)).bind
                (fun sub2 => applyOverwritesGo (.dict (setKey c k1 sub2)) rest) =
                .ok (.dict r) := h
            cases hs : applyOverwrites
                (match lookupKey c k1 with | some s => s | none => .dict []) (.dict d1) with
            | error e =>
                rw [hs] at h2
                have h3 : (Except.error e : Except CCError Val) = .ok (.dict r) := h2
                simp at h3
            | ok sub2 =>
                rw [hs] at h2
                exact ih _ _ _ _ _ _ h2 hl hk2 hv2 hndk2 hnddd
        | null => exact ih _ _ _ _ _ _ h hl hk2 hv2 hndk2 hnddd
        | bool b => exact ih _ _ _ _ _ _ h hl hk2 hv2 hndk2 hnddd
        | int n => exact ih _ _ _ _ _ _ h hl hk2 hv2 hndk2 hnddd
        | str s => exact ih _ _ _ _ _ _ h hl hk2 hv2 hndk2 hnddd
        | list xs => exact ih _ _ _ _ _ _ h hl hk2 hv2 hndk2 hnddd

theorem noDupMembers_lookup (l : List (String × Val)) (k : String) (v : Val)
    (hnd : noDupMembers l = true) (hl : lookupKey l k = some v) : Val.noDup v = true := by
  induction l with
  | nil => simp [lookupKey] at hl
  | cons kv rest ih =>
      obtain ⟨k1, v1⟩ := kv
      have hnd2 : Val.noDup v1 = true ∧ noDupMembers rest = true := by
        simpa only [noDupMembers, Bool.and_eq_true] using hnd
      by_cases hk : k1 = k
      · rw [lookupKey, if_pos hk] at hl
        injection hl with hv
        rw [← hv]
        exact hnd2.1
      · rw [lookupKey, if_neg hk] at hl
        exact ih hnd2.2 hl

/-- C4 counterexample. First fact: with the empty variable-definition
file, defaults `{"a": "x"}` and overrides `{"a": {"b": "y"}}` share the
key `a`, yet `generate_context` raises `TypeError` (the override mapping
meets the non-mapping default) instead of yielding the override value.
Second fact: file `{"a": {"x": {"p": "1"}}}`, defaults
`{"a": {"x": {"q": "2"}}}`, overrides `{"a": {"z": "3"}}` — `a` is a
nested mapping present in both defaults and overrides and `x` is absent
from the override, yet the final `a.x` is the file/defaults merge
`{"p": "1", "q": "2"}`, not the default value `{"q": "2"}`. -/
theorem C4_counterexample :
    generate_context ⟨[], [("cookiecutter.json", "{}")]⟩ "cookiecutter.json"
        (some (.dict [("a", .str "x")])) (some (.dict [("a", .dict [("b", .str "y")])])) =
      .error (.typeError "object does not support item assignment") ∧
    generate_context ⟨[], [("cookiecutter.json", "\x7b\"a\": \x7b\"x\": \x7b\"p\": \"1\"\x7d\x7d\x7d")]⟩
        "cookiecutter.json"
        (some (.dict [("a", .dict [("x", .dict [("q", .str "2")])])]))
        (some (.dict [("a", .dict [("z", .str "3")])])) =
      .ok (.dict [("cookiecutter", .dict [("a", .dict
        [("x", .dict [("p", .str "1"), ("q", .str "2")]), ("z", .str "3")])])]) :=
  ⟨rfl, rfl⟩

/-- C4 as amended: whenever `generate_context` succeeds on mapping
defaults and overrides, the merge has override precedence at the
leaves — any key whose override value is not a mapping ends with the
override value, and for a nested mapping present in both defaults and
overrides, keys absent from the override whose default value is not
itself a mapping retain the default value. (When an overwrite mapping
value meets an existing non-mapping value, `generate_context` raises a
type error instead — the counterexample shows the run that the
unamended claim promised a merged result for.) -/
theorem C4_amended_merge (fs : FS) (file : String)
    (dEntries oEntries cc : List (String × Val))
    (hdnd : Val.noDup (.dict dEntries) = true)
    (hond : Val.noDup (.dict oEntries) = true)
    (hgc : generate_context fs file (some (.dict dEntries)) (some (.dict oEntries)) =
      .ok (.dict [("cookiecutter", .dict cc)])) :
    (∀ k v, lookupKey oEntries k = some v → (∀ es, v ≠ .dict es) →
      lookupKey cc k = some v) ∧
    (∀ k dd od, lookupKey dEntries k = some (.dict dd) →
      lookupKey oEntries k = some (.dict od) →
      ∀ k2 v2, lookupKey dd k2 = some v2 → (∀ es, v2 ≠ .dict es) →
        lookupKey od k2 = none →
        ∃ rd, lookupKey cc k = some (.dict rd) ∧ lookupKey rd k2 = some v2) := by
  have hondk : nodupKeys (keysOf oEntries) = true ∧ noDupMembers oEntries = true := by
    simpa only [Val.noDup, Bool.and_eq_true] using hond
  have hdndk : nodupKeys (keysOf dEntries) = true ∧ noDupMembers dEntries = true := by
    simpa only [Val.noDup, Bool.and_eq_true] using hdnd
  unfold generate_context at hgc
  split at hgc
  · simp at hgc
  · split at hgc
    · simp at hgc
    · rename_i raw hread obj hjson
      cases hstep1 : applyIfTruthy obj (some (.dict dEntries)) with
      | error e =>
          rw [hstep1] at hgc
          simp [Except.bind] at hgc
      | ok obj2 =>
          rw [hstep1] at hgc
          have hgc2 : (applyIfTruthy obj2 (some (.dict oEntries))).map
              (fun obj3 => Val.dict [("cookiecutter", obj3)]) =
              .ok (.dict [("cookiecutter", .dict cc)]) := hgc
          cases hstep2 : applyIfTruthy obj2 (some (.dict oEntries)) with
          | error e =>
              rw [hstep2] at hgc2
              simp [Except.map] at hgc2
          | ok obj3 =>
              rw [hstep2] at hgc2
              have hobj3 : obj3 = .dict cc := by
                have h5 : (Except.ok (Val.dict [("cookiecutter", obj3)]) :
                    Except CCError Val) = .ok (.dict [("cookiecutter", .dict cc)]) := hgc2
                simp only [Except.ok.injEq, Val.dict.injEq, List.cons.injEq,
                  Prod.mk.injEq, true_and, and_true] at h5
                exact h5
              subst hobj3
              constructor
              · -- part 1: non-mapping override values win
                intro k v hov hvnd
                cases oEntries with
                | nil => simp [lookupKey] at hov
                | cons o1 oR =>
                    have hfalse : Val.falsy (.dict (o1 :: oR)) = false := rfl
                    rw [show applyIfTruthy obj2 (some (.dict (o1 :: oR))) =
                      applyOverwrites obj2 (.dict (o1 :: oR)) from by
                        simp [applyIfTruthy, hfalse]] at hstep2
                    cases obj2 with
                    | dict c2 =>
                        exact applyOverwritesGo_leaf _ _ _ _ _ hstep2 hov hvnd hondk.1
                    | null => exact absurd hstep2 (by simp [applyOverwrites, applyOverwritesGo])
                    | bool b => exact absurd hstep2 (by simp [applyOverwrites, applyOverwritesGo])
                    | int n => exact absurd hstep2 (by simp [applyOverwrites, applyOverwritesGo])
                    | str s => exact absurd hstep2 (by simp [applyOverwrites, applyOverwritesGo])
                    | list xs => exact absurd hstep2 (by simp [applyOverwrites, applyOverwritesGo])
              · -- part 2: untouched nested default leaves survive
                intro k dd od hdk hok k2 v2 hddk2 hv2nd hodk2
                have hdd_nd : Val.noDup (.dict dd) = true :=
                  noDupMembers_lookup dEntries k (.dict dd) hdndk.2 hdk
                have hddn : nodupKeys (keysOf dd) = true := by
                  have := hdd_nd
                  simp only [Val.noDup, Bool.and_eq_true] at this
                  exact this.1
                -- the defaults pass really applied (dEntries is nonempty)
                cases dEntries with
                | nil => simp [lookupKey] at hdk
                | cons d1 dR =>
                    have hfalsed : Val.falsy (.dict (d1 :: dR)) = false := rfl
                    rw [show applyIfTruthy obj (some (.dict (d1 :: dR))) =
                      applyOverwrites obj (.dict (d1 :: dR)) from by
                        simp [applyIfTruthy, hfalsed]] at hstep1
                    cases obj with
                    | null => exact absurd hstep1 (by simp [applyOverwrites, applyOverwritesGo])
                    | bool b => exact absurd hstep1 (by simp [applyOverwrites, applyOverwritesGo])
                    | int n => exact absurd hstep1 (by simp [applyOverwrites, applyOverwritesGo])
                    | str s => exact absurd hstep1 (by simp [applyOverwrites, applyOverwritesGo])
                    | list xs =>
                        exact absurd hstep1 (by simp [applyOverwrites, applyOverwritesGo])
                    | dict c0 =>
                        obtain ⟨c2e, hobj2⟩ :=
                          applyOverwritesGo_dict _ _ _ hstep1
                        subst hobj2
                        obtain ⟨s1, hc2k, hs1k2⟩ :=
                          applyOverwritesGo_default_merge (d1 :: dR) c0 c2e k dd k2 v2
                            hstep1 hdk hddk2 hv2nd hdndk.1 hddn
                        -- the overrides pass on top of the merged defaults
                        cases oEntries with
                        | nil => simp [lookupKey] at hok
                        | cons o1 oR =>
                            have hfalse : Val.falsy (.dict (o1 :: oR)) = false := rfl
                            rw [show applyIfTruthy (.dict c2e) (some (.dict (o1 :: oR))) =
                              applyOverwrites (.dict c2e) (.dict (o1 :: oR)) from by
                                simp [applyIfTruthy, hfalse]] at hstep2
                            obtain ⟨s2, hs2, hcck⟩ :=
                              applyOverwritesGo_dictval (o1 :: oR) c2e cc k od s1
                                hstep2 hok hc2k hondk.1
                            refine ⟨s2, hcck, ?_⟩
                            have hgo : applyOverwritesGo (.dict s1) od = .ok (.dict s2) := hs2
                            rw [applyOverwritesGo_preserve od s1 s2 hgo k2
                              (lookupKey_none_ne od k2 hodk2)]
                            exact hs1k2

/-- Witness for the amended C4 at a concrete file, defaults and
overrides: the override leaf `b` wins and the untouched default leaf
`x` survives inside the nested mapping `a`. -/
theorem C4_amended_merge_witness :
    lookupKey [("a", Val.dict [("x", Val.str "2"), ("z", Val.str "3")]),
        ("b", Val.str "o")] "b" = some (Val.str "o") ∧
    ∃ rd, lookupKey [("a", Val.dict [("x", Val.str "2"), ("z", Val.str "3")]),
        ("b", Val.str "o")] "a" = some (.dict rd) ∧
      lookupKey rd "x" = some (Val.str "2") :=
  ⟨(C4_amended_merge ⟨[], [("cookiecutter.json", "{}")]⟩ "cookiecutter.json"
      [("a", Val.dict [("x", Val.str "2")])]
      [("a", Val.dict [("z", Val.str "3")]), ("b", Val.str "o")]
      [("a", Val.dict [("x", Val.str "2"), ("z", Val.str "3")]), ("b", Val.str "o")]
      (by simp [Val.noDup, noDupMembers, nodupKeys, keysOf])
      (by simp [Val.noDup, noDupMembers, nodupKeys, keysOf]) rfl).1
    "b" (Val.str "o") rfl (by intro es h; cases h),
   (C4_amended_merge ⟨[], [("cookiecutter.json", "{}")]⟩ "cookiecutter.json"
      [("a", Val.dict [("x", Val.str "2")])]
      [("a", Val.dict [("z", Val.str "3")]), ("b", Val.str "o")]
      [("a", Val.dict [("x", Val.str "2"), ("z", Val.str "3")]), ("b", Val.str "o")]
      (by simp [Val.noDup, noDupMembers, nodupKeys, keysOf])
      (by simp [Val.noDup, noDupMembers, nodupKeys, keysOf]) rfl).2
    "a" [("x", Val.str "2")] [("z", Val.str "3")] rfl rfl
    "x" (Val.str "2") rfl (by intro es h; cases h) rfl⟩

/-! ## Template locator (cookiecutter/find.py) -/

/-- The subdirectory scan of `find_template`: for each directory-listing
entry that is a non-hidden directory, try the name rendered by the
environment (with no variables) and fall back to the literal name when
rendering throws; return the first candidate whose top level holds
cookiecutter.json. -/
def findTemplateScan (repo_dir : String) (env : JEnv) (fs : FS) :
    List String → Option String
  | [] => none
  | dir_name :: rest =>
      let dir_path := pathJoin repo_dir dir_name
      if fs.dirExists dir_path && !strStartsWith dir_name "." then
        match env.render dir_name [] with
        | .ok rendered_name =>
            let rendered_path := pathJoin repo_dir rendered_name
            if fs.pathExists (pathJoin rendered_path "cookiecutter.json") then
              some rendered_path
            else if fs.pathExists (pathJoin dir_path "cookiecutter.json") then
              some dir_path
            else findTemplateScan repo_dir env fs rest
        | .error _ =>
            if fs.pathExists (pathJoin dir_path "cookiecutter.json") then
              some dir_path
            else findTemplateScan repo_dir env fs rest
      else findTemplateScan repo_dir env fs rest

/-- `find.find_template`: the repository root itself, then
`_cookiecutter/`, then `cookiecutter/`, then the subdirectory scan; no
candidate holding cookiecutter.json raises
`NonTemplatedInputDirException`. -/
def find_template (repo_dir : String) (env : JEnv) (fs : FS) : Except CCError String :=
  if fs.pathExists (pathJoin repo_dir "cookiecutter.json") then .ok repo_dir
  else if fs.pathExists (pathJoin (pathJoin repo_dir "_cookiecutter") "cookiecutter.json") then
    .ok (pathJoin repo_dir "_cookiecutter")
  else if fs.pathExists (pathJoin (pathJoin repo_dir "cookiecutter") "cookiecutter.json") then
    .ok (pathJoin repo_dir "cookiecutter")
  else
    match findTemplateScan repo_dir env fs (fs.listdir repo_dir) with
    | some p => .ok p
    | none => .error .nonTemplatedInputDir

/-- The Template Locator contract in the words of the specification:
the first of — the root itself, `_cookiecutter/`, `cookiecutter/`, and
then for every non-hidden subdirectory in directory-listing order its
name rendered against the empty context (falling back to the literal
name when rendering throws) followed by its literal name — whichever
first contains the variable-definition file at its top level, and the
no-template-found condition when none does. -/
def findTemplateSpec (repo_dir : String) (env : JEnv) (fs : FS) : Except CCError String :=
  let hasJson := fun (p : String) => fs.pathExists (pathJoin p "cookiecutter.json")
  let fixed := [repo_dir, pathJoin repo_dir "_cookiecutter", pathJoin repo_dir "cookiecutter"]
  let subCandidates := (fs.listdir repo_dir).flatMap (fun name =>
    if fs.dirExists (pathJoin repo_dir name) && !strStartsWith name "." then
      (match env.render name [] with
        | .ok rendered => [pathJoin repo_dir rendered]
        | .error _ => []) ++ [pathJoin repo_dir name]
    else [])
  match (fixed ++ subCandidates).find? hasJson with
  | some p => .ok p
  | none => .error .nonTemplatedInputDir

theorem findTemplateScan_eq_find (repo_dir : String) (env : JEnv) (fs : FS) :
    ∀ l : List String,
      findTemplateScan repo_dir env fs l =
        (l.flatMap (fun name =>
          if fs.dirExists (pathJoin repo_dir name) && !strStartsWith name "." then
            (match env.render name [] with
              | .ok rendered => [pathJoin repo_dir rendered]
              | .error _ => []) ++ [pathJoin repo_dir name]
          else [])).find?
          (fun p => fs.pathExists (pathJoin p "cookiecutter.json")) := by
  intro l
  induction l with
  | nil => rfl
  | cons dir_name rest ih =>
      rw [findTemplateScan, List.flatMap_cons]
      by_cases hd : (fs.dirExists (pathJoin repo_dir dir_name) &&
          !strStartsWith dir_name ".") = true
      · rw [if_pos hd, if_pos hd]
        cases hr : env.render dir_name [] with
        | ok rendered =>
            simp only [List.cons_append, List.nil_append, List.find?_cons]
            by_cases h1 : fs.pathExists
                (pathJoin (pathJoin repo_dir rendered) "cookiecutter.json") = true
            · simp [h1]
            · rw [Bool.not_eq_true] at h1
              simp only [h1, if_pos rfl]
              by_cases h2 : fs.pathExists
                  (pathJoin (pathJoin repo_dir dir_name) "cookiecutter.json") = true
              · simp [h2]
              · rw [Bool.not_eq_true] at h2
                simp only [h2, if_pos rfl]
                simpa [h1, h2] using ih
        | error e =>
            simp only [List.nil_append, List.find?_cons]
            by_cases h2 : fs.pathExists
                (pathJoin (pathJoin repo_dir dir_name) "cookiecutter.json") = true
            · simp [h2]
            · rw [Bool.not_eq_true] at h2
              simp only [h2, if_pos rfl]
              simpa [h2] using ih
      · rw [if_neg hd, if_neg hd, List.nil_append]
        exact ih

/-- C7: `find_template` returns exactly what the specification's
candidate order prescribes — the root, `_cookiecutter/`,
`cookiecutter/`, then each non-hidden subdirectory in listing order
tried as its empty-context-rendered name (literal on a rendering
failure) and then its literal name, the first of these containing
cookiecutter.json at top level — and the no-template-found condition
when none matches. -/
theorem C7_find_template_spec (repo_dir : String) (env : JEnv) (fs : FS) :
    find_template repo_dir env fs = findTemplateSpec repo_dir env fs := by
  unfold find_template findTemplateSpec
  simp only [List.cons_append, List.nil_append, List.find?_cons]
  by_cases h1 : fs.pathExists (pathJoin repo_dir "cookiecutter.json") = true
  · simp [h1]
  · rw [Bool.not_eq_true] at h1
    simp only [h1, if_pos rfl, Bool.false_eq_true, if_false]
    by_cases h2 : fs.pathExists
        (pathJoin (pathJoin repo_dir "_cookiecutter") "cookiecutter.json") = true
    · simp [h2]
    · rw [Bool.not_eq_true] at h2
      simp only [h2, if_pos rfl, Bool.false_eq_true, if_false]
      by_cases h3 : fs.pathExists
          (pathJoin (pathJoin repo_dir "cookiecutter") "cookiecutter.json") = true
      · simp [h3]
      · rw [Bool.not_eq_true] at h3
        simp only [h3, if_pos rfl, Bool.false_eq_true, if_false]
        rw [findTemplateScan_eq_find]

/-! ## Hook runner (cookiecutter/hooks.py) -/

/-- The observable outcome of the hook subprocess: an exit status, or an
operating-system error carrying an errno and a message. -/
inductive ProcResult where
  | exited (status : Int)
  | osError (errnoVal : Int) (msg : String)
  deriving Repr, DecidableEq

/-- hooks.EXIT_SUCCESS. -/
def EXIT_SUCCESS : Int := 0

/-- errno.ENOEXEC. -/
def ENOEXEC : Int := 8

/-- The command list `run_script` builds: Python scripts run through the
interpreter, anything else executes directly. -/
def scriptCommand (script_path : String) : List String :=
  if strEndsWith script_path ".py" then ["python", script_path] else [script_path]

/-- `hooks.run_script`: spawn the script (the subprocess outcome is an
input of the model); a non-zero exit status raises `FailedHookException`
carrying the status, an ENOEXEC OS error raises it with the
empty-or-invalid-script message, any other OS error raises it with the
error text; exit status zero returns normally. -/
def run_script (script_path : String) (cwd : String) (proc : ProcResult) :
    Except CCError Unit :=
  let _ := scriptCommand script_path
  let _ := cwd
  match proc with
  | .exited status =>
      if status ≠ EXIT_SUCCESS then
        .error (.failedHook ("Hook script failed (exit status: " ++ toString status ++ ")"))
      else .ok ()
  | .osError e msg =>
      if e = ENOEXEC then
        .error (.failedHook "Hook script failed, might be an empty or invalid script file")
      else
        .error (.failedHook ("Hook script failed (error: " ++ msg ++ ")"))

/-- `os.path.splitext(...)[0]` for the plain file names hooks use (no
special-casing of dot-files, which never carry a hook name). -/
def splitextBase (filename : String) : String :=
  let parts := splitChar '.' filename.data
  match parts with
  | [] => filename
  | [_] => filename
  | _ => String.mk (List.intercalate ['.'] parts.dropLast)

/-- `hooks.valid_hook`: the base name without extension equals the hook
name and the path is a file. -/
def valid_hook (fs : FS) (hook_file : String) (hook_name : String) : Bool :=
  let filename := String.mk ((splitChar '/' hook_file.data).getLastD [])
  splitextBase filename = hook_name && fs.fileExists hook_file

/-- The directory-listing scan inside one hook-directory candidate. -/
def findHookFile (fs : FS) (hook_name : String) (candidate : String) :
    List String → Option String
  | [] => none
  | hook_file :: rest =>
      let hook_path := pathJoin candidate hook_file
      if valid_hook fs hook_path hook_name then some hook_path
      else findHookFile fs hook_name candidate rest

/-- The candidate-directory loop of `find_hook`. -/
def findHookIn (fs : FS) (hook_name : String) : List String → Option String
  | [] => none
  | candidate :: rest =>
      if fs.pathExists candidate then
        match findHookFile fs hook_name candidate (fs.listdir candidate) with
        | some p => some p
        | none => findHookIn fs hook_name rest
      else findHookIn fs hook_name rest

/-- `hooks.find_hook`, with the current working directory explicit (the
callers run it under `work_in`): `None` without a hooks directory;
otherwise scan `hooks/` and, when cookiecutter.json sits at the current
level, also `hooks/<name>/`, returning the first valid script. -/
def find_hook (fs : FS) (cwd : String) (hook_name : String) : Option String :=
  let hooks_dir := pathJoin cwd "hooks"
  if !fs.pathExists hooks_dir then none
  else
    findHookIn fs hook_name
      ([hooks_dir] ++
        (if fs.pathExists (pathJoin cwd "cookiecutter.json") then
          [pathJoin hooks_dir hook_name]
        else []))

/-- Modelled from the spec: `create_tmp_repo_dir` lives in
cookiecutter/utils.py, which is not among the sources. Per the spec the
hook machinery writes into a freshly created temporary scratch
directory, and both call sites (hooks.py lines 112 and 169) invoke the
function with no arguments, so the directory it creates cannot receive
a copy of the template repository. The fresh name the operating system
hands back is modelled as a fixed path whose freshness is a hypothesis
where it matters. -/
def create_tmp_repo_dir (fs : FS) : FS × String :=
  let p := "/tmp/tmpdir"
  (fs.mkdir p, p)

/-- No existing path lies at or below `root`: the freshness the
operating system guarantees for a new temporary directory. -/
def FS.freshFor (fs : FS) (root : String) : Bool :=
  fs.dirs.all (fun d => !isUnder root d) && fs.files.all (fun f => !isUnder root f.1)

/-- `hooks.run_pre_prompt_hook`: create the temporary directory, look
for a `pre_prompt` hook in the repository, run it with the temporary
directory as working directory when present, delete the temporary
directory and re-raise on failure, and return the temporary directory
path on success. -/
def run_pre_prompt_hook (fs : FS) (repo_dir : String) (proc : ProcResult) :
    GenResult String :=
  let (fs1, temp_dir) := create_tmp_repo_dir fs
  match find_hook fs1 repo_dir "pre_prompt" with
  | some hook_path =>
      match run_script hook_path temp_dir proc with
      | .ok () => .ok temp_dir fs1
      | .error e => .fail e (fs1.rmtree temp_dir)
  | none => .ok temp_dir fs1

/-- C8: `run_script` raises the hook-script-failed condition exactly
when the subprocess exits with a non-zero status (carrying that status)
or the operating system reports the cannot-execute error of an
apparently-empty or invalid script (carrying that message); a zero exit
status returns normally. -/
theorem C8_run_script_failures (script_path cwd : String) (s : Int) (msg : String) :
    run_script script_path cwd (.exited 0) = .ok () ∧
    (s ≠ 0 → run_script script_path cwd (.exited s) =
      .error (.failedHook ("Hook script failed (exit status: " ++ toString s ++ ")"))) ∧
    run_script script_path cwd (.osError ENOEXEC msg) =
      .error (.failedHook "Hook script failed, might be an empty or invalid script file") := by
  refine ⟨rfl, ?_, ?_⟩
  · intro hs
    simp [run_script, EXIT_SUCCESS, hs]
  · rfl

/-- Witness for C8 at exit status 3 and a concrete OS error. -/
theorem C8_run_script_failures_witness :
    run_script "/repo/hooks/pre_gen_project.sh" "/out/proj" (.exited 0) = .ok () ∧
    ((3 : Int) ≠ 0 → run_script "/repo/hooks/pre_gen_project.sh" "/out/proj" (.exited 3) =
      .error (.failedHook ("Hook script failed (exit status: " ++ toString (3 : Int) ++ ")"))) ∧
    run_script "/repo/hooks/pre_gen_project.sh" "/out/proj" (.osError ENOEXEC "Exec format error") =
      .error (.failedHook "Hook script failed, might be an empty or invalid script file") :=
  C8_run_script_failures "/repo/hooks/pre_gen_project.sh" "/out/proj" 3 "Exec format error"

/-- C10: `run_pre_prompt_hook` creates a fresh temporary directory and
returns its path without copying the template repository into it — on
every successful run the file table is untouched and the only new
directory is the temporary directory itself — and when no `pre_prompt`
hook exists the returned directory is empty. -/
theorem C10_pre_prompt_fresh_empty (fs : FS) (repo_dir : String) (proc : ProcResult)
    (hfresh : fs.freshFor "/tmp/tmpdir" = true) :
    (∀ temp fs2, run_pre_prompt_hook fs repo_dir proc = .ok temp fs2 →
      temp = "/tmp/tmpdir" ∧ fs2.files = fs.files ∧ fs2.dirs = fs.dirs ++ ["/tmp/tmpdir"]) ∧
    (find_hook (fs.mkdir "/tmp/tmpdir") repo_dir "pre_prompt" = none →
      run_pre_prompt_hook fs repo_dir proc = .ok "/tmp/tmpdir" (fs.mkdir "/tmp/tmpdir") ∧
      ∀ q, isUnder "/tmp/tmpdir" q = true → q ≠ "/tmp/tmpdir" →
        (fs.mkdir "/tmp/tmpdir").pathExists q = false) := by
  have hnd : fs.dirExists "/tmp/tmpdir" = false := by
    simp only [FS.freshFor, Bool.and_eq_true, List.all_eq_true] at hfresh
    by_contra hc
    rw [Bool.not_eq_false] at hc
    have hm := List.mem_of_elem_eq_true hc
    have := hfresh.1 _ hm
    rw [show isUnder "/tmp/tmpdir" "/tmp/tmpdir" = true from by simp [isUnder]] at this
    simp at this
  have hmk : fs.mkdir "/tmp/tmpdir" =
      { fs with dirs := fs.dirs ++ ["/tmp/tmpdir"] } := by
    simp [FS.mkdir, hnd]
  constructor
  · intro temp fs2 h
    simp only [run_pre_prompt_hook, create_tmp_repo_dir] at h
    split at h
    · split at h
      · injection h with h3 h4
        rw [← h3, ← h4, hmk]
        exact ⟨rfl, rfl, rfl⟩
      · simp at h
    · injection h with h3 h4
      rw [← h3, ← h4, hmk]
      exact ⟨rfl, rfl, rfl⟩
  · intro hh
    refine ⟨?_, ?_⟩
    · simp only [run_pre_prompt_hook, create_tmp_repo_dir]
      rw [hh]
    · intro q hq hne
      simp only [FS.freshFor, Bool.and_eq_true, List.all_eq_true] at hfresh
      rw [hmk]
      simp only [FS.pathExists, FS.dirExists, FS.fileExists, Bool.or_eq_false_iff]
      constructor
      · by_contra hc
        rw [Bool.not_eq_false] at hc
        have hm := List.mem_of_elem_eq_true hc
        rw [List.mem_append, List.mem_singleton] at hm
        cases hm with
        | inl hm =>
            have := hfresh.1 _ hm
            rw [hq] at this
            simp at this
        | inr hm => exact hne hm
      · by_contra hc
        rw [Bool.not_eq_false, List.any_eq_true] at hc
        obtain ⟨f, hf, hfp⟩ := hc
        have := hfresh.2 _ hf
        rw [show f.1 = q from by simpa using hfp, hq] at this
        simp at this

/-- Witness for C10: a repository without a hooks directory on a
filesystem with nothing under the temporary path. -/
theorem C10_pre_prompt_fresh_empty_witness :
    (∀ temp fs2, run_pre_prompt_hook ⟨["/repo"], [("/repo/cookiecutter.json", "{}")]⟩
        "/repo" (.exited 0) = .ok temp fs2 →
      temp = "/tmp/tmpdir" ∧ fs2.files = [("/repo/cookiecutter.json", "{}")] ∧
        fs2.dirs = ["/repo"] ++ ["/tmp/tmpdir"]) ∧
    (find_hook (FS.mkdir ⟨["/repo"], [("/repo/cookiecutter.json", "{}")]⟩ "/tmp/tmpdir")
        "/repo" "pre_prompt" = none →
      run_pre_prompt_hook ⟨["/repo"], [("/repo/cookiecutter.json", "{}")]⟩ "/repo"
          (.exited 0) =
        .ok "/tmp/tmpdir"
          (FS.mkdir ⟨["/repo"], [("/repo/cookiecutter.json", "{}")]⟩ "/tmp/tmpdir") ∧
      ∀ q, isUnder "/tmp/tmpdir" q = true → q ≠ "/tmp/tmpdir" →
        (FS.mkdir ⟨["/repo"], [("/repo/cookiecutter.json", "{}")]⟩
          "/tmp/tmpdir").pathExists q = false) :=
  C10_pre_prompt_fresh_empty ⟨["/repo"], [("/repo/cookiecutter.json", "{}")]⟩ "/repo"
    (.exited 0) (by rfl)

/-! ## Prompting (cookiecutter/prompt.py)

The interactive session is modelled as a queue of replies the user will
type plus a log of the prompts issued.  A rich `Prompt.ask` call always
blocks on the terminal; in the model it consumes the next queued reply,
and with an empty queue the computation is stuck on user input. -/

/-- One interactive prompt issued through rich. -/
inductive PromptEvent where
  | ask (text : String)
  | askChoices (text : String) (choices : List String) (deflt : String)
  deriving Repr, DecidableEq

/-- The interactive session: pending replies and the log of prompts. -/
structure PromptIO where
  responses : List String
  events : List PromptEvent
  deriving Repr, DecidableEq

/-- The outcome of code that may prompt: a value with the advanced
session, a block on user input with nothing left in the reply queue, or
a raised exception. -/
inductive PRes (α : Type) where
  | ok (a : α) (io : PromptIO)
  | blocked (ev : PromptEvent)
  | err (e : CCError)

/-- Lexicographic comparison of character lists by code point, the order
Python string comparison uses. -/
def charListLt : List Char → List Char → Bool
  | [], [] => false
  | [], _ :: _ => true
  | _ :: _, [] => false
  | a :: as, b :: bs =>
      if a.val < b.val then true
      else if b.val < a.val then false
      else charListLt as bs

/-- Python `s < t` on strings. -/
def strLtB (s t : String) : Bool := charListLt s.data t.data

/-- Python `min` over a list of strings. -/
def strListMin : List String → String
  | [] => ""
  | [s] => s
  | s :: rest =>
      let m := strListMin rest
      if strLtB s m then s else m

/-- Python `max` over a list of strings. -/
def strListMax : List String → String
  | [] => ""
  | [s] => s
  | s :: rest =>
      let m := strListMax rest
      if strLtB m s then s else m

/-- The decimal digits of a natural number, structurally on a fuel
bound so that concrete prompts evaluate. -/
def natDigitsFuel : Nat → Nat → List Char
  | 0, _ => []
  | fuel + 1, n =>
      if n < 10 then [Nat.digitChar n]
      else natDigitsFuel fuel (n / 10) ++ [Nat.digitChar (n % 10)]

/-- Python `str(i)` on a natural number. -/
def natStr (n : Nat) : String := String.mk (natDigitsFuel (n + 1) n)

/-- Python `"\n".join(lines)`, written structurally. -/
def joinNl : List String → String
  | [] => ""
  | [s] => s
  | s :: rest => s ++ "\n" ++ joinNl rest

/-- Lookup in a prompts table (a Python dict of display strings). -/
def lookupStr : List (String × String) → String → Option String
  | [], _ => none
  | (k, v) :: rest, key => if k = key then some v else lookupStr rest key

/-- `prompts.get(var_name, prefix + var_name)`. -/
def getPrompt (prompts : List (String × String)) (var_name pfx : String) : String :=
  match lookupStr prompts var_name with
  | some t => t
  | none => pfx ++ var_name

/-- `prompt.DEFAULT_DISPLAY`. -/
def DEFAULT_DISPLAY : String := "default"

/-- `prompt._prompts_from_options`: mapping-valued options contribute
their string `_display` (defaulting to `default`); everything else is
skipped. -/
def prompts_from_options : List (String × Val) → List (String × String)
  | [] => []
  | (key, raw) :: rest =>
      match raw with
      | .dict es =>
          (match lookupKey es "_display" with
           | some (.str d) => [(key, d)]
           | some _ => []
           | none => [(key, DEFAULT_DISPLAY)]) ++ prompts_from_options rest
      | _ => prompts_from_options rest

/-- `prompt.read_user_variable`: one `Prompt.ask` with the default; an
empty reply yields the default, anything else the typed string. -/
def read_user_variable (var_name : String) (default_value : Val)
    (prompts : List (String × String)) (pfx : String) (io : PromptIO) : PRes Val :=
  let prompt_text := getPrompt prompts var_name pfx
  match io.responses with
  | [] => .blocked (.ask prompt_text)
  | r :: rest =>
      let io2 : PromptIO := ⟨rest, io.events ++ [.ask prompt_text]⟩
      if r.isEmpty then .ok default_value io2 else .ok (.str r) io2

/-- `YesNoPrompt.yes_choices`. -/
def yes_choices : List String := ["1", "true", "t", "yes", "y", "on"]

/-- `YesNoPrompt.no_choices`. -/
def no_choices : List String := ["0", "false", "f", "no", "n", "off"]

/-- The re-prompt loop of `YesNoPrompt.ask`: lowercase the reply, map it
through the yes/no vocabularies, and re-ask on anything else. -/
def yesNoLoop (text : String) (deflt : Bool) (evs : List PromptEvent) :
    List String → PRes Bool
  | [] => .blocked (.ask text)
  | r :: rest =>
      let evs2 := evs ++ [.ask text]
      let v := strLower r
      if r.isEmpty then .ok deflt ⟨rest, evs2⟩
      else if yes_choices.contains v then .ok true ⟨rest, evs2⟩
      else if no_choices.contains v then .ok false ⟨rest, evs2⟩
      else yesNoLoop text deflt evs2 rest

/-- `prompt.read_user_yes_no`. -/
def read_user_yes_no (var_name : String) (default_value : Bool)
    (prompts : List (String × String)) (pfx : String) (io : PromptIO) : PRes Bool :=
  yesNoLoop (getPrompt prompts var_name pfx) default_value io.events io.responses

/-- The re-prompt loop of `JsonPrompt.ask`: an empty reply returns the
default — which is the serialized JSON text, a string, not the mapping —
and an unparsable reply re-asks. -/
def jsonPromptLoop (text : String) (deflt : String) (evs : List PromptEvent) :
    List String → PRes Val
  | [] => .blocked (.ask text)
  | r :: rest =>
      let evs2 := evs ++ [.ask text]
      if r.isEmpty then .ok (.str deflt) ⟨rest, evs2⟩
      else
        match jsonLoads r with
        | some v => .ok v ⟨rest, evs2⟩
        | none => jsonPromptLoop text deflt evs2 rest

/-- `prompt.read_user_dict`: a `JsonPrompt.ask` whose default is
`json.dumps(default_value)`. -/
def read_user_dict (var_name : String) (default_value : Val)
    (prompts : List (String × String)) (pfx : String) (io : PromptIO) : PRes Val :=
  jsonPromptLoop (getPrompt prompts var_name pfx) (jsonDumps default_value)
    io.events io.responses

/-- The validated-choice loop of `Prompt.ask(..., choices=..., default="0")`:
an empty reply takes the default, a listed choice is returned, anything
else re-asks. -/
def promptChoicesLoop (text : String) (choices : List String) (deflt : String)
    (evs : List PromptEvent) : List String → PRes String
  | [] => .blocked (.askChoices text choices deflt)
  | r :: rest =>
      let evs2 := evs ++ [.askChoices text choices deflt]
      if r.isEmpty then .ok deflt ⟨rest, evs2⟩
      else if choices.contains r then .ok r ⟨rest, evs2⟩
      else promptChoicesLoop text choices deflt evs2 rest

/-- `prompt.read_user_choice`: reject an empty option list, number the
options from zero, build the numbered prompt text, ask with the numeral
choices and default `"0"`, and map the picked numeral back to its
option. -/
def read_user_choice (var_name : String) (options : List Val)
    (prompts : List (String × String)) (pfx : String) (io : PromptIO) : PRes Val :=
  if options.isEmpty then .err (.valueError "Options list must not be empty")
  else
    let prompt_text := getPrompt prompts var_name pfx
    let choices := (List.range options.length).map natStr
    let choice_map := choices.zip options
    let choice_lines := (choices.zip options).map (fun p => p.1 ++ ") " ++ printVal p.2)
    let choice_text := joinNl choice_lines
    let full_text := prompt_text ++ "\n" ++ choice_text ++ "\nChoose from " ++
      strListMin choices ++ " to " ++ strListMax choices
    match promptChoicesLoop full_text choices "0" io.events io.responses with
    | .ok choice io2 =>
        match lookupKey choice_map choice with
        | some v => .ok v io2
        | none => .err (.keyError choice)
    | .blocked ev => .blocked ev
    | .err e => .err e

/-- `prompt.render_variable`: a non-string value is returned raw; a
string is rendered with the context-so-far passed as keyword
arguments. -/
def render_variable (env : JEnv) (raw : Val) (cookiecutter_dict : List (String × Val)) :
    Except RenderErr Val :=
  match raw with
  | .str s => (env.render s cookiecutter_dict).map Val.str
  | v => .ok v

/-- Render each option of a choice variable in order. -/
def renderOptions (env : JEnv) (cookiecutter_dict : List (String × Val)) :
    List Val → Except RenderErr (List Val)
  | [] => .ok []
  | o :: rest =>
      (render_variable env o cookiecutter_dict).bind (fun v =>
        (renderOptions env cookiecutter_dict rest).map (fun vs => v :: vs))

/-- `prompt.prompt_choice_for_config`: render the options against the
context-so-far and hand them to `read_user_choice`.  The `no_input`
argument is received but never consulted — the interactive prompt is
issued in no-input mode too, although the docstring says the first
option is returned. -/
def prompt_choice_for_config (cookiecutter_dict : List (String × Val)) (env : JEnv)
    (key : String) (options : List Val) (no_input : Bool)
    (prompts : List (String × String)) (pfx : String) (io : PromptIO) : PRes Val :=
  let _ := no_input
  match renderOptions env cookiecutter_dict options with
  | .error e => .err (renderErrToCC e)
  | .ok rendered_options => read_user_choice key rendered_options prompts pfx io

/-- The per-variable loop of `prompt_for_config`, threading the
context-so-far (the in-place mutation of the Python dict): private keys
are copied, a list is a choice field, booleans and mappings are returned
raw in no-input mode, everything else is rendered against the
context-so-far; a strict-undefined failure in the per-key try block is
wrapped as `UndefinedVariableInTemplate` naming the key. -/
def promptLoop (context : Val) (env : JEnv) (prompts : List (String × String))
    (no_input : Bool) :
    List (String × Val) → List (String × Val) → PromptIO → PRes (List (String × Val))
  | acc, [], io => .ok acc io
  | acc, (key, raw) :: rest, io =>
      if strStartsWith key "_" then
        promptLoop context env prompts no_input (setKey acc key raw) rest io
      else
        match raw with
        | .list opts =>
            match prompt_choice_for_config acc env key opts no_input prompts "" io with
            | .ok val io2 =>
                promptLoop context env prompts no_input (setKey acc key val) rest io2
            | .blocked ev => .blocked ev
            | .err (.jinjaUndefined m) =>
                .err (.undefinedVarInTemplate
                  ("Unable to render variable " ++ key ++ ": " ++ m) m context key)
            | .err e => .err e
        | .bool b =>
            if no_input then
              promptLoop context env prompts no_input (setKey acc key (.bool b)) rest io
            else
              match read_user_yes_no key b prompts "" io with
              | .ok val io2 =>
                  promptLoop context env prompts no_input
                    (setKey acc key (.bool val)) rest io2
              | .blocked ev => .blocked ev
              | .err e => .err e
        | .dict es =>
            if no_input then
              promptLoop context env prompts no_input (setKey acc key (.dict es)) rest io
            else
              match read_user_dict key (.dict es) prompts "" io with
              | .ok val io2 =>
                  promptLoop context env prompts no_input (setKey acc key val) rest io2
              | .blocked ev => .blocked ev
              | .err e => .err e
        | _ =>
            match render_variable env raw acc with
            | .error (.undef m) =>
                .err (.undefinedVarInTemplate
                  ("Unable to render variable " ++ key ++ ": " ++ m) m context key)
            | .error e => .err (renderErrToCC e)
            | .ok val =>
                if no_input then
                  promptLoop context env prompts no_input (setKey acc key val) rest io
                else
                  match read_user_variable key val prompts "" io with
                  | .ok v io2 =>
                      promptLoop context env prompts no_input (setKey acc key v) rest io2
                  | .blocked ev => .blocked ev
                  | .err e => .err e

/-- `prompt.prompt_for_config`: fetch the reserved mapping, build the
environment and display prompts, run the per-variable loop, and return
the context with the updated mapping. -/
def prompt_for_config (context : Val) (no_input : Bool) (io : PromptIO) : PRes Val :=
  match context with
  | .dict ctx =>
      match lookupKey ctx "cookiecutter" with
      | some (.dict cookiecutter_dict) =>
          let env := create_env_with_context context
          let prompts := prompts_from_options cookiecutter_dict
          match promptLoop context env prompts no_input
              cookiecutter_dict cookiecutter_dict io with
          | .ok cc2 io2 => .ok (.dict (setKey ctx "cookiecutter" (.dict cc2))) io2
          | .blocked ev => .blocked ev
          | .err e => .err e
      | some _ => .err (.typeError "cookiecutter entry is not a mapping")
      | none => .err (.keyError "cookiecutter")
  | _ => .err (.typeError "context is not a mapping")

/-- The C1 failing input: one list-valued (choice) variable. -/
def C1ctx : Val :=
  .dict [("cookiecutter", .dict [("color", .list [.str "red", .str "green"])])]

/-- C1: contrary to the claim, `prompt_for_config` with `no_input=true`
on a choice variable still issues the interactive numbered prompt —
`prompt_choice_for_config` never consults `no_input` — so with no reply
available the run blocks, and a queued reply can select an option other
than the first, breaking no-input determinism. -/
theorem C1_no_input_choice_still_prompts :
    (∃ text choices d,
      prompt_for_config C1ctx true ⟨[], []⟩ = .blocked (.askChoices text choices d)) ∧
    (∃ io2,
      prompt_for_config C1ctx true ⟨["1"], []⟩ =
        .ok (.dict [("cookiecutter", .dict [("color", .str "green")])]) io2) :=
  ⟨⟨_, _, _, rfl⟩,
   ⟨⟨[], [.askChoices "color\n0) red\n1) green\nChoose from 0 to 1" ["0", "1"] "0"]⟩,
    by rfl⟩⟩

/-- The C2 failing input: the spec example variable-definition file. -/
def C2ctx : Val :=
  .dict [("cookiecutter", .dict
    [("project_name", .str "Peanut Butter"),
     ("repo_name", .str "\x7b\x7bcookiecutter.project_name.lower()\x7d\x7d")])]

/-- C2: contrary to the claim, on the spec example the run does not
produce `repo_name = "peanut butter"`: `render_variable` passes the
context-so-far as keyword arguments, so the render namespace holds
`project_name` directly and no `cookiecutter` name, the reference
`cookiecutter.project_name` is strict-undefined, and `prompt_for_config`
raises `UndefinedVariableInTemplate` naming `repo_name`. -/
theorem C2_render_namespace_lacks_cookiecutter :
    prompt_for_config C2ctx true ⟨[], []⟩ =
      .err (.undefinedVarInTemplate
        "Unable to render variable repo_name: cookiecutter is undefined"
        "cookiecutter is undefined" C2ctx "repo_name") :=
  rfl

end Cookiecutter


